import Mathlib

/-!
Verification of the XMODEM-style transfer core of the swiftOS repository.

Shallow embedding conventions:
- Bytes are `Nat` values; u8 overflow is made explicit with `% 256`.
- The transport endpoint (the `inner: R` of `Xmodem<R>`, a `Read + Write`
  byte endpoint) is modelled as a `Wire`: a list of bytes still to be read
  and the list of bytes written so far.  Reading from an exhausted wire is
  a transport failure, modelled as `TimedOut` (the spec, section 5, says a
  blocked transport read surfaces as `TimedOut`); writing always succeeds.
- Fallible code returns `Except ErrorKind`; state mutated before an error
  is kept, so every operation returns its updated state alongside the
  result, mirroring the Rust `&mut self` methods.
- The progress callback is observational only; executions collect the
  events passed to it in a list.
- Potentially unbounded driver loops take a fuel argument and return
  `Option`; `none` models divergence and theorems supply sufficient fuel.
-/

/-- Error taxonomy of `src/std/src/io.rs` (`ErrorKind`). -/
inductive ErrorKind where
  | NotFound
  | PermissionDenied
  | ConnectionRefused
  | ConnectionReset
  | ConnectionAborted
  | NotConnected
  | AddrInUse
  | AddrNotAvailable
  | BrokenPipe
  | AlreadyExists
  | WouldBlock
  | InvalidInput
  | InvalidData
  | TimedOut
  | WriteZero
  | Interrupted
  | Other
  | UnexpectedEof
deriving DecidableEq, Repr

/-- Progress events of `src/std/src/xmodem/progress.rs`. -/
inductive Progress where
  | Waiting
  | Started
  | Packet (id : Nat)
deriving DecidableEq, Repr

/-- Control bytes of `src/std/src/xmodem/mod.rs`. -/
def SOH : Nat := 0x01

/-- End of transmission control byte. -/
def EOT : Nat := 0x04

/-- Acknowledge control byte. -/
def ACK : Nat := 0x06

/-- Negative acknowledge control byte. -/
def NAK : Nat := 0x15

/-- Cancel control byte. -/
def CAN : Nat := 0x18

/-- The transport endpoint: bytes still to be read, bytes written so far. -/
structure Wire where
  input : List Nat
  output : List Nat
deriving DecidableEq, Repr

/-- Session state of `Xmodem<R>`: the `packet` sequence counter (a u8,
kept below 256 by construction) and the `started` flag. -/
structure Xmodem where
  packet : Nat
  started : Bool
deriving DecidableEq, Repr

/-- `Xmodem::new` / `new_with_progress`: packet sequence 1, not started. -/
def Xmodem.new : Xmodem := { packet := 1, started := false }

/-- Bitwise complement of a u8, as the Rust `!` operator on `u8`:
`!p = 255 - p` for `p < 256`. -/
def complU8 (p : Nat) : Nat := 255 - p % 256

/-- `Xmodem::read_byte`: read one byte from the inner endpoint; when
`abortOnCan` is set and the byte is `CAN`, fail with `ConnectionAborted`.
The byte is consumed from the transport in either case. -/
def read_byte (abortOnCan : Bool) (w : Wire) : (Except ErrorKind Nat) × Wire :=
  match w.input with
  | [] => (.error .TimedOut, w)
  | b :: rest =>
    let w' : Wire := ⟨rest, w.output⟩
    if abortOnCan ∧ b = CAN then (.error .ConnectionAborted, w')
    else (.ok b, w')

/-- `Xmodem::write_byte`: write one byte to the inner endpoint. -/
def write_byte (w : Wire) (b : Nat) : Wire := ⟨w.input, w.output ++ [b]⟩

/-- `Xmodem::expect_byte_or_cancel`: read a byte, compare with `b`; on a
mismatch write `CAN` out, then fail with `ConnectionAborted` when the read
byte was `CAN` and `InvalidData` otherwise. -/
def expect_byte_or_cancel (w : Wire) (b : Nat) : (Except ErrorKind Nat) × Wire :=
  match read_byte false w with
  | (.error e, w') => (.error e, w')
  | (.ok br, w') =>
    if br = b then (.ok b, w')
    else
      let w'' := write_byte w' CAN
      if br = CAN then (.error .ConnectionAborted, w'')
      else (.error .InvalidData, w'')

/-- `Xmodem::expect_byte`: read a byte and compare with `b`; on a mismatch
fail with `ConnectionAborted` when the read byte was `CAN` and
`InvalidData` otherwise (nothing is written). -/
def expect_byte (w : Wire) (b : Nat) : (Except ErrorKind Nat) × Wire :=
  match read_byte false w with
  | (.error e, w') => (.error e, w')
  | (.ok br, w') =>
    if br = b then (.ok b, w')
    else
      if br = CAN then (.error .ConnectionAborted, w')
      else (.error .InvalidData, w')

/-- Result of `read_packet`: the protocol result, the bytes written into
the destination buffer (in order, a prefix of the buffer), the session
state, the wire, and the progress events emitted during the call. -/
structure RP where
  res : Except ErrorKind Nat
  payload : List Nat
  state : Xmodem
  wire : Wire
  events : List Progress
deriving Repr

/-- The payload loop of `read_packet` (`for byte in buf { ... }`): read
`n` bytes, appending each to the buffer and adding it into the wrapping
u8 checksum accumulator.  Returns the bytes read so far, the checksum
accumulator, the error if a read failed, and the wire. -/
def readPayload : Nat → Wire → Nat → List Nat → (List Nat × Nat × Option ErrorKind × Wire)
  | 0, w, cs, acc => (acc, cs, none, w)
  | n + 1, w, cs, acc =>
    match read_byte false w with
    | (.error e, w') => (acc, cs, some e, w')
    | (.ok b, w') => readPayload n w' ((cs + b) % 256) (acc ++ [b])

/-- Steps 2 to 6 of `read_packet`, shared verbatim between
`src/std/src/xmodem/mod.rs` and `src/ttywrite/src/xmodem/mod.rs`: check
the sequence byte and its complement, read `bufLen` payload bytes while
accumulating the checksum, read the checksum byte, then either reply
`NAK` and fail `Interrupted`, or reply `ACK`, emit the packet event and
advance the sequence counter. -/
def read_packet_rest (s : Xmodem) (w : Wire) (bufLen : Nat) : RP :=
  match expect_byte_or_cancel w s.packet with
  | (.error e, w') => ⟨.error e, [], s, w', []⟩
  | (.ok _, w') =>
    match expect_byte_or_cancel w' (complU8 s.packet) with
    | (.error e, w2) => ⟨.error e, [], s, w2, []⟩
    | (.ok _, w2) =>
      match readPayload bufLen w2 0 [] with
      | (acc, _, some e, w3) => ⟨.error e, acc, s, w3, []⟩
      | (acc, cs, none, w3) =>
        match read_byte false w3 with
        | (.error e, w4) => ⟨.error e, acc, s, w4, []⟩
        | (.ok rcs, w4) =>
          if rcs ≠ cs then
            ⟨.error .Interrupted, acc, s, write_byte w4 NAK, []⟩
          else
            ⟨.ok bufLen, acc, { s with packet := (s.packet + 1) % 256 },
              write_byte w4 ACK, [.Packet s.packet]⟩

/-- `Xmodem::read_packet` of `src/std/src/xmodem/mod.rs`: reject a buffer
shorter than 128 bytes, perform the one-time `NAK` start handshake, then
dispatch on the first control byte (aborting on `CAN`): `EOT` runs the
end-of-transmission exchange, a byte that is neither `EOT` nor `SOH`
makes this variant write `CAN` and fail `InvalidData`, and `SOH`
continues with `read_packet_rest`. -/
def read_packet (s : Xmodem) (w : Wire) (bufLen : Nat) : RP :=
  if bufLen < 128 then ⟨.error .UnexpectedEof, [], s, w, []⟩
  else
    let s1 := if s.started then s else { s with started := true }
    let w1 := if s.started then w else write_byte w NAK
    let ev1 : List Progress := if s.started then [] else [.Started]
    match read_byte true w1 with
    | (.error e, w2) => ⟨.error e, [], s1, w2, ev1⟩
    | (.ok b1, w2) =>
      if b1 = EOT then
        let w3 := write_byte w2 NAK
        match expect_byte w3 EOT with
        | (.error e, w4) => ⟨.error e, [], s1, w4, ev1⟩
        | (.ok _, w4) =>
          ⟨.ok 0, [], { s1 with started := false }, write_byte w4 ACK, ev1⟩
      else if b1 ≠ SOH then
        ⟨.error .InvalidData, [], s1, write_byte w2 CAN, ev1⟩
      else
        let r := read_packet_rest s1 w2 bufLen
        ⟨r.res, r.payload, r.state, r.wire, ev1 ++ r.events⟩

/-- `Xmodem::read_packet` of `src/ttywrite/src/xmodem/mod.rs`: identical
to the std variant except that on a first control byte that is neither
`EOT` nor `SOH` the `CAN` write is commented out in the source, so
nothing is written before failing with `InvalidData`. -/
def read_packetT (s : Xmodem) (w : Wire) (bufLen : Nat) : RP :=
  if bufLen < 128 then ⟨.error .UnexpectedEof, [], s, w, []⟩
  else
    let s1 := if s.started then s else { s with started := true }
    let w1 := if s.started then w else write_byte w NAK
    let ev1 : List Progress := if s.started then [] else [.Started]
    match read_byte true w1 with
    | (.error e, w2) => ⟨.error e, [], s1, w2, ev1⟩
    | (.ok b1, w2) =>
      if b1 = EOT then
        let w3 := write_byte w2 NAK
        match expect_byte w3 EOT with
        | (.error e, w4) => ⟨.error e, [], s1, w4, ev1⟩
        | (.ok _, w4) =>
          ⟨.ok 0, [], { s1 with started := false }, write_byte w4 ACK, ev1⟩
      else if b1 ≠ SOH then
        ⟨.error .InvalidData, [], s1, w2, ev1⟩
      else
        let r := read_packet_rest s1 w2 bufLen
        ⟨r.res, r.payload, r.state, r.wire, ev1 ++ r.events⟩

/-- Result of `write_packet` and of the whole-stream drivers. -/
structure WP where
  res : Except ErrorKind Nat
  state : Xmodem
  wire : Wire
  events : List Progress
deriving Repr

/-- The payload loop of `write_packet` (`for byte in buf { ... }`): write
every byte of `buf` while accumulating the wrapping u8 checksum. -/
def writePayload : List Nat → Wire → Nat → Wire × Nat
  | [], w, cs => (w, cs)
  | b :: rest, w, cs => writePayload rest (write_byte w b) ((cs + b) % 256)

/-- The part of `write_packet` after the length gate and the start
handshake, shared verbatim between `src/std/src/xmodem/mod.rs` and
`src/ttywrite/src/xmodem/mod.rs`: send the end-of-transmission exchange
when `buf` is empty, otherwise send `SOH`, the sequence byte, its
complement, the payload and the checksum, then dispatch on the response
byte (`ACK` advances the sequence, `NAK` fails `Interrupted`, `CAN`
aborts, anything else fails `InvalidData`).  `ev0` carries the events
emitted by the handshake of the same call. -/
def write_packet_started (s : Xmodem) (w : Wire) (buf : List Nat)
    (ev0 : List Progress) : WP :=
  if buf = [] then
    let w1 := write_byte w EOT
    match expect_byte w1 NAK with
    | (.error e, w2) => ⟨.error e, s, w2, ev0⟩
    | (.ok _, w2) =>
      let w3 := write_byte w2 EOT
      match expect_byte w3 ACK with
      | (.error e, w4) => ⟨.error e, s, w4, ev0⟩
      | (.ok _, w4) => ⟨.ok 0, { s with started := false }, w4, ev0⟩
  else
    let w1 := write_byte w SOH
    let w2 := write_byte w1 s.packet
    let w3 := write_byte w2 (complU8 s.packet)
    let (w4, cs) := writePayload buf w3 0
    let w5 := write_byte w4 cs
    match read_byte true w5 with
    | (.error e, w6) => ⟨.error e, s, w6, ev0⟩
    | (.ok r, w6) =>
      if r = ACK then
        ⟨.ok buf.length, { s with packet := (s.packet + 1) % 256 }, w6,
          ev0 ++ [.Packet s.packet]⟩
      else if r = NAK then ⟨.error .Interrupted, s, w6, ev0⟩
      else ⟨.error .InvalidData, s, w6, ev0⟩

/-- `Xmodem::write_packet` of `src/std/src/xmodem/mod.rs`: reject a
buffer whose length is below 128 and nonzero, run the one-time start
handshake (wait for the receiver `NAK`, emitting `Waiting` before and
`Started` after), then continue with `write_packet_started`. -/
def write_packet (s : Xmodem) (w : Wire) (buf : List Nat) : WP :=
  if buf.length < 128 ∧ buf ≠ [] then ⟨.error .UnexpectedEof, s, w, []⟩
  else
    if s.started then write_packet_started s w buf []
    else
      match expect_byte w NAK with
      | (.error e, w') => ⟨.error e, s, w', [.Waiting]⟩
      | (.ok _, w') =>
        write_packet_started { s with started := true } w' buf [.Waiting, .Started]

/-- `Xmodem::write_packet` of `src/ttywrite/src/xmodem/mod.rs`: the body
is line-for-line identical to the std variant. -/
def write_packetT (s : Xmodem) (w : Wire) (buf : List Nat) : WP :=
  if buf.length < 128 ∧ buf ≠ [] then ⟨.error .UnexpectedEof, s, w, []⟩
  else
    if s.started then write_packet_started s w buf []
    else
      match expect_byte w NAK with
      | (.error e, w') => ⟨.error e, s, w', [.Waiting]⟩
      | (.ok _, w') =>
        write_packet_started { s with started := true } w' buf [.Waiting, .Started]

/-- `ReadExt::read_max` of `src/std/src/xmodem/read_ext.rs`, generic over
the `Read` capability.  `rd st n` models `self.read(buf)` on a window of
`n` remaining bytes: it returns the bytes written into the window (at
most `n` of them) and the advanced reader state.  The loop shrinks the
window on a successful read, stops on a zero-length read or a full
buffer, skips `Interrupted` errors and propagates any other error.  Fuel
bounds the loop; `none` models divergence. -/
def readMax {σ : Type} (rd : σ → Nat → (Except ErrorKind (List Nat)) × σ) :
    Nat → σ → Nat → List Nat → Option ((Except ErrorKind (List Nat)) × σ)
  | 0, _, _, _ => none
  | fuel + 1, st, remaining, acc =>
    if remaining = 0 then some (.ok acc, st)
    else
      match rd st remaining with
      | (.error .Interrupted, st') => readMax rd fuel st' remaining acc
      | (.error e, st') => some (.error e, st')
      | (.ok bytes, st') =>
        if bytes.length = 0 then some (.ok acc, st')
        else readMax rd fuel st' (remaining - bytes.length) (acc ++ bytes)

/-- Model of the data source handed to `transmit` (spec, sections 4.1 and
6: any object exposing the Readable capability; the in-repository test
sources are slice readers).  A bulk read on a window of `n` bytes yields
`min n remaining` bytes: the front of the list, and the rest as the new
state.  This source overrides the default bulk read, as `read_max`
final-chunk handling requires (see the C10 theorem). -/
def sliceRead (st : List Nat) (n : Nat) : (Except ErrorKind (List Nat)) × List Nat :=
  (.ok (st.take n), st.drop n)

/-- The sender retry loop body of `transmit_with_progress`
(`for _ in 0..10 { match transmitter.write_packet(&packet) { ... } }`):
attempt `write_packet` up to `k` times on the same buffer, retrying on
`Interrupted`, returning any other error or the success immediately;
after `k` consecutive `Interrupted` failures the driver falls through to
`BrokenPipe`. -/
def writeAttempts : Nat → Xmodem → Wire → List Nat → WP
  | 0, s, w, _ => ⟨.error .BrokenPipe, s, w, []⟩
  | k + 1, s, w, buf =>
    let r := write_packet s w buf
    match r.res with
    | .error .Interrupted =>
      let r' := writeAttempts k r.state r.wire buf
      ⟨r'.res, r'.state, r'.wire, r.events ++ r'.events⟩
    | _ => r

/-- The main loop of `Xmodem::transmit_with_progress`: pull up to 128
bytes from the data source with `read_max`, zero-pad the final short
chunk, send the end-of-transmission packet and return the written count
when the source is exhausted, otherwise send the chunk with the 10-try
retry policy and accumulate the count of real bytes. -/
def transmitLoop : Nat → List Nat → Xmodem → Wire → Nat → List Progress → Option WP
  | 0, _, _, _, _, _ => none
  | fuel + 1, ds, s, w, written, evs =>
    match readMax sliceRead 2 ds 128 [] with
    | none => none
    | some (.error e, _) => some ⟨.error e, s, w, evs⟩
    | some (.ok bytes, ds') =>
      let n := bytes.length
      if n = 0 then
        let r := write_packet s w []
        match r.res with
        | .ok _ => some ⟨.ok written, r.state, r.wire, evs ++ r.events⟩
        | .error e => some ⟨.error e, r.state, r.wire, evs ++ r.events⟩
      else
        let buf := bytes ++ List.replicate (128 - n) 0
        let a := writeAttempts 10 s w buf
        match a.res with
        | .ok _ => transmitLoop fuel ds' a.state a.wire (written + n) (evs ++ a.events)
        | .error e => some ⟨.error e, a.state, a.wire, evs ++ a.events⟩

/-- `Xmodem::transmit(ds, port)`: a fresh session driving `transmitLoop`
over the data `ds`, with the wire input preloaded with the bytes the
peer will send.  Fuel `ds.length + 1` covers every terminating run, as
each loop iteration consumes at least one data byte except the last. -/
def transmitX (ds : List Nat) (wireIn : List Nat) : Option WP :=
  transmitLoop (ds.length + 1) ds Xmodem.new ⟨wireIn, []⟩ 0 []

/-- Result of a retry round of `read_packet`: protocol result, state,
wire, the 128-byte scratch buffer contents after the round, events. -/
structure RA where
  res : Except ErrorKind Nat
  state : Xmodem
  wire : Wire
  buf : List Nat
  events : List Progress
deriving Repr

/-- Overlay of the bytes a `read_packet` attempt wrote into the scratch
buffer (always a prefix, written left to right) on the previous buffer
contents. -/
def overlay (old new : List Nat) : List Nat := new ++ old.drop new.length

/-- The receiver retry loop body of `receive_with_progress`
(`for _ in 0..10 { match receiver.read_packet(&mut packet) { ... } }`):
attempt `read_packet` up to `k` times into the same scratch buffer,
retrying on `Interrupted`; after `k` consecutive `Interrupted` failures
the driver falls through to `BrokenPipe`. -/
def readAttempts : Nat → Xmodem → Wire → Nat → List Nat → RA
  | 0, s, w, _, buf => ⟨.error .BrokenPipe, s, w, buf, []⟩
  | k + 1, s, w, n, buf =>
    let r := read_packet s w n
    let buf' := overlay buf r.payload
    match r.res with
    | .error .Interrupted =>
      let r' := readAttempts k r.state r.wire n buf'
      ⟨r'.res, r'.state, r'.wire, r'.buf, r.events ++ r'.events⟩
    | _ => ⟨r.res, r.state, r.wire, buf', r.events⟩

/-- Result of the whole-stream receive driver: protocol result, state,
wire, the bytes delivered to the destination sink (modelled as an
in-memory byte collector implementing the Writable capability, whose
bulk `write` appends and never fails), and the events. -/
structure RR where
  res : Except ErrorKind Nat
  state : Xmodem
  wire : Wire
  sink : List Nat
  events : List Progress
deriving Repr

/-- The main loop of `Xmodem::receive_with_progress`: run the 10-try
retry round of `read_packet` into the 128-byte scratch buffer; a zero
result stops the loop returning the received total, a success forwards
the whole scratch buffer to the destination sink via its bulk `write`
and adds 128 to the total, any error is returned. -/
def receiveLoop : Nat → Xmodem → Wire → List Nat → List Nat → Nat → List Progress → Option RR
  | 0, _, _, _, _, _, _ => none
  | fuel + 1, s, w, buf, sink, received, evs =>
    let a := readAttempts 10 s w 128 buf
    match a.res with
    | .error e => some ⟨.error e, a.state, a.wire, sink, evs ++ a.events⟩
    | .ok 0 => some ⟨.ok received, a.state, a.wire, sink, evs ++ a.events⟩
    | .ok n =>
      receiveLoop fuel a.state a.wire a.buf (sink ++ a.buf) (received + n) (evs ++ a.events)

/-- `Xmodem::receive(port, into)`: a fresh session driving `receiveLoop`
with a zeroed 128-byte scratch buffer and an empty collector sink, with
the wire input preloaded with the bytes the peer will send. -/
def receiveX (wireIn : List Nat) : Option RR :=
  receiveLoop (wireIn.length + 1) Xmodem.new ⟨wireIn, []⟩ (List.replicate 128 0) [] 0 []

/-- `MemWrite` of `src/boot_loader/src/mem.rs`: a write cursor `i`
between a fixed `start` and a fixed bound (named `stop` here because
`end` is reserved in Lean; the Rust field is `end`). -/
structure MemWrite where
  i : Nat
  start : Nat
  stop : Nat
deriving DecidableEq, Repr

/-- `MemWrite::new(start, end)`. -/
def MemWrite.new (start stop : Nat) : MemWrite := ⟨start, start, stop⟩

/-- `MemWrite::write_byte`: refuse with `UnexpectedEof` when the cursor
reached the bound, otherwise store the byte at address `i` (the volatile
raw-memory store is modelled as a function update of the memory map),
advance the cursor and return the byte. -/
def MemWrite.write_byte (m : MemWrite) (mem : Nat → Nat) (b : Nat) :
    (Except ErrorKind Nat) × MemWrite × (Nat → Nat) :=
  if m.i = m.stop then (.error .UnexpectedEof, m, mem)
  else (.ok b, { m with i := m.i + 1 }, fun a => if a = m.i then b else mem a)

/-- The default bulk `write` of the `Write` trait of
`src/std/src/io.rs`, instantiated at `MemWrite`: write every byte of
`buf` with `write_byte`, failing on the first error, and return the
buffer length on success. -/
def MemWrite.write (m : MemWrite) (mem : Nat → Nat) :
    List Nat → (Except ErrorKind Nat) × MemWrite × (Nat → Nat)
  | [] => (.ok 0, m, mem)
  | b :: rest =>
    match m.write_byte mem b with
    | (.error e, m', mem') => (.error e, m', mem')
    | (.ok _, m', mem') =>
      match MemWrite.write m' mem' rest with
      | (.ok k, m2, mem2) => (.ok (k + 1), m2, mem2)
      | other => other

/-- Model of a reader state for the default bulk `read` of the `Read`
trait of `src/std/src/io.rs`: a finite stream of `read_byte` outcomes.
Reading from an exhausted stream is a transport failure (`TimedOut`), as
for the wire. -/
def streamReadByte (st : List (Except ErrorKind Nat)) :
    (Except ErrorKind Nat) × List (Except ErrorKind Nat) :=
  match st with
  | [] => (.error .TimedOut, [])
  | r :: rest => (r, rest)

/-- The loop of the default bulk `read` (`for byte in buf { *byte =
self.read_byte()?; }`): read `n` bytes one at a time, propagating the
first error. -/
def defaultReadGo : Nat → List (Except ErrorKind Nat) → List Nat →
    (Except ErrorKind (List Nat)) × List (Except ErrorKind Nat)
  | 0, st, acc => (.ok acc, st)
  | n + 1, st, acc =>
    match streamReadByte st with
    | (.error e, st') => (.error e, st')
    | (.ok b, st') => defaultReadGo n st' (acc ++ [b])

/-- The default bulk `read` of the `Read` trait of `src/std/src/io.rs`
on a window of `n` bytes: fill the whole window byte by byte and return
`Ok(n)` (the filled bytes, here), or propagate the first error. -/
def defaultRead (st : List (Except ErrorKind Nat)) (n : Nat) :
    (Except ErrorKind (List Nat)) × List (Except ErrorKind Nat) :=
  defaultReadGo n st []

/-- The 8-bit wraparound checksum of a payload, as accumulated byte by
byte in `read_packet` and `write_packet` (`checksum.wrapping_add(byte)`). -/
def chks (l : List Nat) : Nat := l.foldl (fun a b => (a + b) % 256) 0

/-- The wire encoding of one data packet with sequence byte `p` (for
`p < 256`): `SOH`, the sequence byte, its complement, the 128 payload
bytes and the checksum byte. -/
def frame (p : Nat) (c : List Nat) : List Nat :=
  SOH :: p :: (255 - p) :: c ++ [chks c]

/-- Zero padding of a final short chunk to 128 bytes
(`packet[n..].iter_mut().for_each(|b| *b = 0)`). -/
def padChunk (c : List Nat) : List Nat := c ++ List.replicate (128 - c.length) 0

/-- The data stream cut into the chunks `read_max` yields on a slice
source: full 128-byte chunks and a final short chunk when the length is
not a multiple of 128. -/
def chunkify (l : List Nat) : List (List Nat) :=
  if h : l = [] then []
  else l.take 128 :: chunkify (l.drop 128)
termination_by l.length
decreasing_by
  simp only [List.length_drop]
  have hpos : 0 < l.length := List.length_pos.mpr h
  omega

/-- The canonical byte stream a sender produces for the padded chunks
`cs`, starting at sequence number `p`: one frame per chunk, then the
double `EOT`. -/
def framesP (p : Nat) : List (List Nat) → List Nat
  | [] => [EOT, EOT]
  | c :: cs => frame p c ++ framesP ((p + 1) % 256) cs

/-- The packet progress events of a run over the chunks `cs` starting at
sequence number `p`. -/
def packetEvents (p : Nat) : List (List Nat) → List Progress
  | [] => []
  | _ :: cs => .Packet p :: packetEvents ((p + 1) % 256) cs

/-- The canonical byte stream a receiver produces after its start
handshake, for `k` packets: one `ACK` per packet, then the `NAK`/`ACK`
answers of the double-`EOT` exchange. -/
def ackStream (k : Nat) : List Nat := List.replicate k ACK ++ [NAK, ACK]

/-- The full canonical sender wire output for the data `ds`, starting at
sequence number `p`. -/
def senderOut (p : Nat) (ds : List Nat) : List Nat :=
  framesP p ((chunkify ds).map padChunk)

theorem complU8_eq {p : Nat} (hp : p < 256) : complU8 p = 255 - p := by
  simp [complU8, Nat.mod_eq_of_lt hp]

theorem read_byte_cons (abortOnCan : Bool) (b : Nat) (rest out : List Nat)
    (hb : ¬ (abortOnCan ∧ b = CAN)) :
    read_byte abortOnCan ⟨b :: rest, out⟩ = (.ok b, ⟨rest, out⟩) := by
  simp [read_byte, hb]

theorem expect_byte_ok (b : Nat) (rest out : List Nat) :
    expect_byte ⟨b :: rest, out⟩ b = (.ok b, ⟨rest, out⟩) := by
  simp [expect_byte, read_byte]

theorem expect_byte_or_cancel_ok (b : Nat) (rest out : List Nat) :
    expect_byte_or_cancel ⟨b :: rest, out⟩ b = (.ok b, ⟨rest, out⟩) := by
  simp [expect_byte_or_cancel, read_byte]

theorem writePayload_spec (buf : List Nat) : ∀ (w : Wire) (cs : Nat),
    writePayload buf w cs =
      (⟨w.input, w.output ++ buf⟩, buf.foldl (fun a b => (a + b) % 256) cs) := by
  induction buf with
  | nil => intro w cs; simp [writePayload]
  | cons b rest ih =>
    intro w cs
    simp [writePayload, ih, write_byte]

theorem readPayload_spec (payload : List Nat) : ∀ (n : Nat) (rest out acc : List Nat)
    (cs : Nat), payload.length = n →
    readPayload n ⟨payload ++ rest, out⟩ cs acc =
      (acc ++ payload, payload.foldl (fun a b => (a + b) % 256) cs, none, ⟨rest, out⟩) := by
  induction payload with
  | nil =>
    intro n rest out acc cs hn
    subst hn
    simp [readPayload]
  | cons b tl ih =>
    intro n rest out acc cs hn
    subst hn
    simp only [List.length_cons]
    simp only [readPayload, List.cons_append, read_byte, Bool.false_eq_true, false_and,
      if_false]
    rw [ih tl.length rest out (acc ++ [b]) ((cs + b) % 256) rfl]
    simp

theorem wps_data_ack (p : Nat) (hp : p < 256) (buf : List Nat) (hb : buf.length = 128)
    (rest out : List Nat) (ev0 : List Progress) :
    write_packet_started ⟨p, true⟩ ⟨ACK :: rest, out⟩ buf ev0 =
      ⟨.ok 128, ⟨(p + 1) % 256, true⟩, ⟨rest, out ++ frame p buf⟩,
        ev0 ++ [.Packet p]⟩ := by
  have hne : buf ≠ [] := by
    intro h
    rw [h] at hb
    simp at hb
  simp only [write_packet_started, hne, if_false, write_byte, writePayload_spec,
    complU8_eq hp]
  rw [read_byte_cons]
  · simp [hb, frame, chks, ACK, NAK]
  · decide

theorem wps_data_nak (p : Nat) (hp : p < 256) (buf : List Nat) (hb : buf.length = 128)
    (rest out : List Nat) (ev0 : List Progress) :
    write_packet_started ⟨p, true⟩ ⟨NAK :: rest, out⟩ buf ev0 =
      ⟨.error .Interrupted, ⟨p, true⟩, ⟨rest, out ++ frame p buf⟩, ev0⟩ := by
  have hne : buf ≠ [] := by
    intro h
    rw [h] at hb
    simp at hb
  simp only [write_packet_started, hne, if_false, write_byte, writePayload_spec,
    complU8_eq hp]
  rw [read_byte_cons]
  · simp [frame, chks, ACK, NAK]
  · decide

theorem wps_eot (p : Nat) (st : Bool) (rest out : List Nat) (ev0 : List Progress) :
    write_packet_started ⟨p, st⟩ ⟨NAK :: ACK :: rest, out⟩ [] ev0 =
      ⟨.ok 0, ⟨p, false⟩, ⟨rest, out ++ [EOT, EOT]⟩, ev0⟩ := by
  simp [write_packet_started, expect_byte, read_byte, write_byte, NAK, ACK, EOT]

theorem write_packet_of_started (p : Nat) (w : Wire) (buf : List Nat)
    (hgate : ¬ (buf.length < 128 ∧ buf ≠ [])) :
    write_packet ⟨p, true⟩ w buf = write_packet_started ⟨p, true⟩ w buf [] := by
  simp [write_packet, hgate]

theorem write_packet_of_unstarted (p : Nat) (rest out : List Nat) (buf : List Nat)
    (hgate : ¬ (buf.length < 128 ∧ buf ≠ [])) :
    write_packet ⟨p, false⟩ ⟨NAK :: rest, out⟩ buf =
      write_packet_started ⟨p, true⟩ ⟨rest, out⟩ buf [.Waiting, .Started] := by
  simp only [write_packet, hgate, if_false]
  rw [expect_byte_ok]
  simp

theorem read_packet_soh (p : Nat) (st : Bool) (win out : List Nat) (n : Nat)
    (hn : ¬ n < 128) :
    read_packet ⟨p, st⟩ ⟨SOH :: win, out⟩ n =
      (let s1 : Xmodem := if st then ⟨p, st⟩ else ⟨p, true⟩
       let out1 := if st then out else out ++ [NAK]
       let ev1 : List Progress := if st then [] else [.Started]
       let r := read_packet_rest s1 ⟨win, out1⟩ n
       ⟨r.res, r.payload, r.state, r.wire, ev1 ++ r.events⟩) := by
  cases st <;>
    simp [read_packet, read_byte, write_byte, SOH, EOT, CAN, hn]

theorem read_packet_rest_ack (p : Nat) (hp : p < 256) (st : Bool) (c : List Nat)
    (hc : c.length = 128) (rest out : List Nat) :
    read_packet_rest ⟨p, st⟩ ⟨p :: ((255 - p) :: (c ++ (chks c :: rest))), out⟩ 128 =
      ⟨.ok 128, c, ⟨(p + 1) % 256, st⟩, ⟨rest, out ++ [ACK]⟩, [.Packet p]⟩ := by
  simp only [read_packet_rest]
  rw [expect_byte_or_cancel_ok]
  simp only []
  rw [complU8_eq hp, expect_byte_or_cancel_ok]
  simp only []
  rw [readPayload_spec c 128 (chks c :: rest) out [] 0 hc]
  simp only []
  rw [read_byte_cons false (chks c) rest out (by simp)]
  simp [chks, write_byte]

theorem read_packet_data_ack (p : Nat) (hp : p < 256) (c : List Nat)
    (hc : c.length = 128) (rest out : List Nat) :
    read_packet ⟨p, true⟩ ⟨frame p c ++ rest, out⟩ 128 =
      ⟨.ok 128, c, ⟨(p + 1) % 256, true⟩, ⟨rest, out ++ [ACK]⟩, [.Packet p]⟩ := by
  have hshape : frame p c ++ rest = SOH :: (p :: ((255 - p) :: (c ++ (chks c :: rest)))) := by
    simp [frame]
  rw [hshape, read_packet_soh p true _ out 128 (by omega)]
  simp only [if_true, List.nil_append]
  rw [read_packet_rest_ack p hp true c hc rest out]

theorem read_packet_eot (p : Nat) (rest out : List Nat) :
    read_packet ⟨p, true⟩ ⟨EOT :: EOT :: rest, out⟩ 128 =
      ⟨.ok 0, [], ⟨p, false⟩, ⟨rest, out ++ [NAK, ACK]⟩, []⟩ := by
  simp [read_packet, read_byte, expect_byte, write_byte, EOT, NAK, ACK, CAN]

theorem read_packet_of_unstarted (p : Nat) (w : Wire) (n : Nat) (hn : 128 ≤ n) :
    read_packet ⟨p, false⟩ w n =
      (let r := read_packet ⟨p, true⟩ ⟨w.input, w.output ++ [NAK]⟩ n
       ⟨r.res, r.payload, r.state, r.wire, .Started :: r.events⟩) := by
  have hno : ¬ n < 128 := by omega
  cases hr : read_byte true ⟨w.input, w.output ++ [NAK]⟩ with
  | mk res w2 =>
    cases res with
    | error e => simp [read_packet, hno, write_byte, hr]
    | ok b1 =>
      by_cases hb1 : b1 = EOT
      · subst hb1
        cases he : expect_byte ⟨w2.input, w2.output ++ [NAK]⟩ EOT with
        | mk res2 w4 =>
          cases res2 with
          | error e2 => simp [read_packet, hno, write_byte, hr, he]
          | ok b2 => simp [read_packet, hno, write_byte, hr, he]
      · by_cases hsoh : b1 = SOH
        · subst hsoh
          simp [read_packet, hno, write_byte, hr, SOH, EOT]
        · simp [read_packet, hno, write_byte, hr, hb1, hsoh]

theorem readMax_slice (ds : List Nat) :
    readMax sliceRead 2 ds 128 [] = some (.ok (ds.take 128), ds.drop 128) := by
  by_cases h0 : ds = []
  · subst h0
    simp [readMax, sliceRead]
  · have hpos : 0 < ds.length := List.length_pos.mpr h0
    by_cases hlen : 128 ≤ ds.length
    · have htake : (ds.take 128).length = 128 := by
        simp [List.length_take]
        omega
      simp [readMax, sliceRead, htake]
    · have htake : (ds.take 128).length = ds.length := by
        simp [List.length_take]
        omega
      have htake2 : ds.take 128 = ds := List.take_of_length_le (by omega)
      have hdrop : ds.drop 128 = [] := List.drop_eq_nil_of_le (by omega)
      simp only [readMax, sliceRead, htake2, hdrop]
      have hne : ¬ ds.length = 0 := by omega
      simp [readMax, sliceRead, hne, hpos]

theorem writeAttempts_not_interrupted (k : Nat) (s : Xmodem) (w : Wire)
    (buf : List Nat) (h : (write_packet s w buf).res ≠ .error .Interrupted) :
    writeAttempts (k + 1) s w buf = write_packet s w buf := by
  simp only [writeAttempts]

theorem writeAttempts_interrupted (k : Nat) (s : Xmodem) (w : Wire)
    (buf : List Nat) (h : (write_packet s w buf).res = .error .Interrupted) :
    writeAttempts (k + 1) s w buf =
      (let r := write_packet s w buf
       let r' := writeAttempts k r.state r.wire buf
       ⟨r'.res, r'.state, r'.wire, r.events ++ r'.events⟩) := by
  simp only [writeAttempts, h]

theorem readAttempts_not_interrupted (k : Nat) (s : Xmodem) (w : Wire)
    (n : Nat) (buf : List Nat)
    (h : (read_packet s w n).res ≠ .error .Interrupted) :
    readAttempts (k + 1) s w n buf =
      (let r := read_packet s w n
       ⟨r.res, r.state, r.wire, overlay buf r.payload, r.events⟩) := by
  simp only [readAttempts]

theorem readAttempts_interrupted (k : Nat) (s : Xmodem) (w : Wire)
    (n : Nat) (buf : List Nat)
    (h : (read_packet s w n).res = .error .Interrupted) :
    readAttempts (k + 1) s w n buf =
      (let r := read_packet s w n
       let r' := readAttempts k r.state r.wire n (overlay buf r.payload)
       ⟨r'.res, r'.state, r'.wire, r'.buf, r.events ++ r'.events⟩) := by
  simp only [readAttempts, h]

theorem overlay_full (buf c : List Nat) (hb : buf.length = 128)
    (hc : c.length = 128) : overlay buf c = c := by
  have : buf.drop c.length = [] := by
    apply List.drop_eq_nil_of_le
    omega
  simp [overlay, this]

theorem chunkify_nil : chunkify [] = [] := by
  rw [chunkify]
  simp

theorem chunkify_cons (l : List Nat) (h : l ≠ []) :
    chunkify l = l.take 128 :: chunkify (l.drop 128) := by
  rw [chunkify]
  simp [h]

theorem ackStream_succ (k : Nat) : ackStream (k + 1) = ACK :: ackStream k := by
  simp [ackStream, List.replicate_succ]

set_option maxRecDepth 4000 in
theorem transmitLoop_spec (fuel : Nat) : ∀ (ds : List Nat) (p : Nat) (out : List Nat)
    (written : Nat) (evs : List Progress), p < 256 → ds.length < fuel →
    transmitLoop fuel ds ⟨p, true⟩ ⟨ackStream (chunkify ds).length, out⟩ written evs =
      some ⟨.ok (written + ds.length), ⟨(p + (chunkify ds).length) % 256, false⟩,
        ⟨[], out ++ framesP p ((chunkify ds).map padChunk)⟩,
        evs ++ packetEvents p (chunkify ds)⟩ := by
  induction fuel with
  | zero =>
    intro ds p out written evs hp hlen
    omega
  | succ fuel ih =>
    intro ds p out written evs hp hlen
    by_cases hds : ds = []
    · subst hds
      have hack : ackStream 0 = [NAK, ACK] := by simp [ackStream]
      simp only [chunkify_nil, List.length_nil, List.map_nil, framesP, packetEvents, hack]
      simp only [transmitLoop, readMax_slice, List.take_nil, List.drop_nil]
      rw [write_packet_of_started p ⟨[NAK, ACK], out⟩ [] (by simp)]
      rw [wps_eot]
      rw [if_pos (show ([] : List Nat).length = 0 from rfl)]
      simp only [List.length_nil, Nat.add_zero, Nat.mod_eq_of_lt hp, List.append_nil]
    · have hlen1 : 0 < ds.length := List.length_pos.mpr hds
      have hck : chunkify ds = ds.take 128 :: chunkify (ds.drop 128) := chunkify_cons ds hds
      have hn : (ds.take 128).length = min 128 ds.length := List.length_take 128 ds
      have hnne : ¬ (ds.take 128).length = 0 := by omega
      have hbuf : (ds.take 128 ++ List.replicate (128 - (ds.take 128).length) 0).length = 128 := by
        simp only [List.length_append, List.length_replicate]
        omega
      have hgate : ¬ ((ds.take 128 ++ List.replicate (128 - (ds.take 128).length) 0).length < 128 ∧
          (ds.take 128 ++ List.replicate (128 - (ds.take 128).length) 0) ≠ []) := by
        rw [hbuf]
        simp
      have hwp : write_packet ⟨p, true⟩ ⟨ACK :: ackStream (chunkify (ds.drop 128)).length, out⟩
          (ds.take 128 ++ List.replicate (128 - (ds.take 128).length) 0) =
          ⟨.ok 128, ⟨(p + 1) % 256, true⟩,
            ⟨ackStream (chunkify (ds.drop 128)).length,
              out ++ frame p (ds.take 128 ++ List.replicate (128 - (ds.take 128).length) 0)⟩,
            [.Packet p]⟩ := by
        rw [write_packet_of_started p _ _ hgate]
        exact wps_data_ack p hp _ hbuf _ _ _
      have hwa : writeAttempts 10 ⟨p, true⟩
          ⟨ACK :: ackStream (chunkify (ds.drop 128)).length, out⟩
          (ds.take 128 ++ List.replicate (128 - (ds.take 128).length) 0) =
          ⟨.ok 128, ⟨(p + 1) % 256, true⟩,
            ⟨ackStream (chunkify (ds.drop 128)).length,
              out ++ frame p (ds.take 128 ++ List.replicate (128 - (ds.take 128).length) 0)⟩,
            [.Packet p]⟩ := by
        rw [writeAttempts_not_interrupted 9 _ _ _ (by rw [hwp]; simp), hwp]
      rw [hck]
      simp only [List.length_cons, ackStream_succ]
      simp only [transmitLoop, readMax_slice]
      simp only [hnne, if_false, hwa]
      rw [ih (ds.drop 128) ((p + 1) % 256)
        (out ++ frame p (ds.take 128 ++ List.replicate (128 - (ds.take 128).length) 0))
        (written + (ds.take 128).length) (evs ++ [Progress.Packet p])
        (Nat.mod_lt _ (by omega)) (by simp only [List.length_drop]; omega)]
      have harith : written + (ds.take 128).length + (ds.drop 128).length =
          written + ds.length := by
        simp only [List.length_drop]
        omega
      have hmod : ((p + 1) % 256 + (chunkify (ds.drop 128)).length) % 256 =
          (p + ((chunkify (ds.drop 128)).length + 1)) % 256 := by
        rw [Nat.mod_add_mod]
        congr 1
        omega
      rw [harith, hmod]
      simp only [List.map_cons, framesP, packetEvents, padChunk, List.append_assoc,
        List.cons_append, List.nil_append]

set_option maxRecDepth 4000 in
theorem receiveLoop_spec (fuel : Nat) : ∀ (cs : List (List Nat)) (p : Nat)
    (out buf sink : List Nat) (received : Nat) (evs : List Progress),
    p < 256 → (∀ c ∈ cs, c.length = 128) → buf.length = 128 → cs.length < fuel →
    receiveLoop fuel ⟨p, true⟩ ⟨framesP p cs, out⟩ buf sink received evs =
      some ⟨.ok (received + 128 * cs.length), ⟨(p + cs.length) % 256, false⟩,
        ⟨[], out ++ ackStream cs.length⟩, sink ++ cs.flatten, evs ++ packetEvents p cs⟩ := by
  induction fuel with
  | zero =>
    intro cs p out buf sink received evs hp hcs hbuf hlen
    omega
  | succ fuel ih =>
    intro cs p out buf sink received evs hp hcs hbuf hlen
    cases cs with
    | nil =>
      have hrp : read_packet ⟨p, true⟩ ⟨framesP p [], out⟩ 128 =
          ⟨.ok 0, [], ⟨p, false⟩, ⟨[], out ++ [NAK, ACK]⟩, []⟩ := by
        rw [show framesP p [] = [EOT, EOT] from rfl]
        exact read_packet_eot p [] out
      have hra : readAttempts 10 ⟨p, true⟩ ⟨framesP p [], out⟩ 128 buf =
          ⟨.ok 0, ⟨p, false⟩, ⟨[], out ++ [NAK, ACK]⟩, buf, []⟩ := by
        rw [readAttempts_not_interrupted 9 _ _ _ _ (by rw [hrp]; simp), hrp]
        simp [overlay]
      simp only [receiveLoop, hra]
      simp only [List.length_nil, Nat.mul_zero, Nat.add_zero, Nat.mod_eq_of_lt hp,
        ackStream, List.replicate, List.nil_append, List.flatten_nil, List.append_nil,
        packetEvents]
    | cons c cs =>
      have hc : c.length = 128 := hcs c (by simp)
      have hrp : read_packet ⟨p, true⟩ ⟨framesP p (c :: cs), out⟩ 128 =
          ⟨.ok 128, c, ⟨(p + 1) % 256, true⟩,
            ⟨framesP ((p + 1) % 256) cs, out ++ [ACK]⟩, [.Packet p]⟩ := by
        rw [show framesP p (c :: cs) = frame p c ++ framesP ((p + 1) % 256) cs from rfl]
        exact read_packet_data_ack p hp c hc _ out
      have hra : readAttempts 10 ⟨p, true⟩ ⟨framesP p (c :: cs), out⟩ 128 buf =
          ⟨.ok 128, ⟨(p + 1) % 256, true⟩,
            ⟨framesP ((p + 1) % 256) cs, out ++ [ACK]⟩, c, [.Packet p]⟩ := by
        rw [readAttempts_not_interrupted 9 _ _ _ _ (by rw [hrp]; simp), hrp]
        simp [overlay_full buf c hbuf hc]
      simp only [receiveLoop, hra]
      rw [ih cs ((p + 1) % 256) (out ++ [ACK]) c (sink ++ c) (received + 128)
        (evs ++ [Progress.Packet p]) (Nat.mod_lt _ (by omega))
        (fun x hx => hcs x (by simp [hx])) hc (by simp at hlen; omega)]
      have harith : received + 128 + 128 * cs.length = received + 128 * (c :: cs).length := by
        simp only [List.length_cons]
        ring
      have hmod : ((p + 1) % 256 + cs.length) % 256 = (p + (c :: cs).length) % 256 := by
        rw [Nat.mod_add_mod]
        congr 1
        simp only [List.length_cons]
        omega
      rw [harith, hmod]
      simp only [List.length_cons, ackStream_succ, List.flatten_cons, List.append_assoc,
        List.cons_append, List.nil_append, packetEvents]

theorem chunkify_mem_le : ∀ (n : Nat) (l : List Nat), l.length ≤ n →
    ∀ c ∈ chunkify l, c.length ≤ 128 := by
  intro n
  induction n with
  | zero =>
    intro l hl c hc
    have : l = [] := List.eq_nil_of_length_eq_zero (by omega)
    subst this
    rw [chunkify_nil] at hc
    simp at hc
  | succ n ih =>
    intro l hl c hc
    by_cases h0 : l = []
    · subst h0
      rw [chunkify_nil] at hc
      simp at hc
    · rw [chunkify_cons l h0] at hc
      rcases List.mem_cons.mp hc with h | h
      · subst h
        simp [List.length_take]
      · exact ih (l.drop 128) (by simp [List.length_drop]; omega) c h

theorem chunkify_count_bounds : ∀ (n : Nat) (l : List Nat), l.length ≤ n →
    l.length ≤ 128 * (chunkify l).length ∧
      128 * (chunkify l).length < l.length + 128 := by
  intro n
  induction n with
  | zero =>
    intro l hl
    have : l = [] := List.eq_nil_of_length_eq_zero (by omega)
    subst this
    simp [chunkify_nil]
  | succ n ih =>
    intro l hl
    by_cases h0 : l = []
    · subst h0
      simp [chunkify_nil]
    · have hpos : 0 < l.length := List.length_pos.mpr h0
      rw [chunkify_cons l h0]
      have hrec := ih (l.drop 128) (by simp [List.length_drop]; omega)
      simp only [List.length_drop] at hrec
      simp only [List.length_cons]
      omega

theorem chunkify_flatten_pad : ∀ (n : Nat) (l : List Nat), l.length ≤ n →
    ((chunkify l).map padChunk).flatten =
      l ++ List.replicate (128 * (chunkify l).length - l.length) 0 := by
  intro n
  induction n with
  | zero =>
    intro l hl
    have : l = [] := List.eq_nil_of_length_eq_zero (by omega)
    subst this
    simp [chunkify_nil]
  | succ n ih =>
    intro l hl
    by_cases h0 : l = []
    · subst h0
      simp [chunkify_nil]
    · have hpos : 0 < l.length := List.length_pos.mpr h0
      rw [chunkify_cons l h0]
      simp only [List.map_cons, List.flatten_cons]
      rw [ih (l.drop 128) (by simp [List.length_drop]; omega)]
      simp only [padChunk, List.length_take, List.length_drop]
      by_cases h128 : 128 ≤ l.length
      · have htk : (l.take 128).length = 128 := by simp [List.length_take]; omega
        have hmin : min 128 l.length = 128 := by omega
        rw [hmin]
        simp only [Nat.sub_self, List.replicate_zero, List.append_nil]
        rw [← List.append_assoc, List.take_append_drop]
        have hcount : 128 * (chunkify (l.drop 128)).length - (l.length - 128) =
            128 * (l.take 128 :: chunkify (l.drop 128)).length - l.length := by
          simp only [List.length_cons]
          omega
        rw [hcount]
      · have hdrop : l.drop 128 = [] := List.drop_eq_nil_of_le (by omega)
        rw [hdrop, chunkify_nil]
        have hmin : min 128 l.length = l.length := by omega
        rw [hmin]
        have htk : l.take 128 = l := List.take_of_length_le (by omega)
        rw [htk]
        simp only [List.length_nil, Nat.mul_zero, Nat.zero_sub, List.replicate_zero,
          List.append_nil, List.length_cons, chunkify_nil]

theorem framesP_len_ge : ∀ (cs : List (List Nat)) (p : Nat),
    cs.length ≤ (framesP p cs).length := by
  intro cs
  induction cs with
  | nil =>
    intro p
    rw [show framesP p ([] : List (List Nat)) = [EOT, EOT] from rfl]
    simp
  | cons c cs ih =>
    intro p
    rw [show framesP p (c :: cs) = frame p c ++ framesP ((p + 1) % 256) cs from rfl]
    have := ih ((p + 1) % 256)
    simp only [List.length_cons, List.length_append, frame, List.cons_append]
    omega

set_option maxRecDepth 4000 in
theorem transmitLoop_start (fuel : Nat) (ds : List Nat) (out : List Nat)
    (written : Nat) (evs : List Progress) (hlen : ds.length < fuel) :
    transmitLoop fuel ds ⟨1, false⟩ ⟨NAK :: ackStream (chunkify ds).length, out⟩ written evs =
      some ⟨.ok (written + ds.length), ⟨(1 + (chunkify ds).length) % 256, false⟩,
        ⟨[], out ++ framesP 1 ((chunkify ds).map padChunk)⟩,
        evs ++ [.Waiting, .Started] ++ packetEvents 1 (chunkify ds)⟩ := by
  cases fuel with
  | zero => omega
  | succ fuel =>
    by_cases hds : ds = []
    · subst hds
      have hack : ackStream 0 = [NAK, ACK] := by simp [ackStream]
      simp only [chunkify_nil, List.length_nil, List.map_nil, framesP, packetEvents, hack]
      simp only [transmitLoop, readMax_slice, List.take_nil, List.drop_nil]
      rw [write_packet_of_unstarted 1 [NAK, ACK] out [] (by simp)]
      rw [wps_eot]
      rw [if_pos (show ([] : List Nat).length = 0 from rfl)]
      simp only [List.length_nil, Nat.add_zero, List.append_nil, List.append_assoc,
        List.cons_append, List.nil_append]
    · have hlen1 : 0 < ds.length := List.length_pos.mpr hds
      have hck : chunkify ds = ds.take 128 :: chunkify (ds.drop 128) := chunkify_cons ds hds
      have hn : (ds.take 128).length = min 128 ds.length := List.length_take 128 ds
      have hnne : ¬ (ds.take 128).length = 0 := by omega
      have hbuf : (ds.take 128 ++ List.replicate (128 - (ds.take 128).length) 0).length = 128 := by
        simp only [List.length_append, List.length_replicate]
        omega
      have hgate : ¬ ((ds.take 128 ++ List.replicate (128 - (ds.take 128).length) 0).length < 128 ∧
          (ds.take 128 ++ List.replicate (128 - (ds.take 128).length) 0) ≠ []) := by
        rw [hbuf]
        simp
      have hwp : write_packet ⟨1, false⟩
          ⟨NAK :: ACK :: ackStream (chunkify (ds.drop 128)).length, out⟩
          (ds.take 128 ++ List.replicate (128 - (ds.take 128).length) 0) =
          ⟨.ok 128, ⟨(1 + 1) % 256, true⟩,
            ⟨ackStream (chunkify (ds.drop 128)).length,
              out ++ frame 1 (ds.take 128 ++ List.replicate (128 - (ds.take 128).length) 0)⟩,
            [.Waiting, .Started, .Packet 1]⟩ := by
        rw [write_packet_of_unstarted 1 _ out _ hgate]
        exact wps_data_ack 1 (by omega) _ hbuf _ _ _
      have hwa : writeAttempts 10 ⟨1, false⟩
          ⟨NAK :: ACK :: ackStream (chunkify (ds.drop 128)).length, out⟩
          (ds.take 128 ++ List.replicate (128 - (ds.take 128).length) 0) =
          ⟨.ok 128, ⟨(1 + 1) % 256, true⟩,
            ⟨ackStream (chunkify (ds.drop 128)).length,
              out ++ frame 1 (ds.take 128 ++ List.replicate (128 - (ds.take 128).length) 0)⟩,
            [.Waiting, .Started, .Packet 1]⟩ := by
        rw [writeAttempts_not_interrupted 9 _ _ _ (by rw [hwp]; simp), hwp]
      rw [hck]
      simp only [List.length_cons, ackStream_succ]
      simp only [transmitLoop, readMax_slice]
      simp only [hnne, if_false, hwa]
      rw [transmitLoop_spec fuel (ds.drop 128) ((1 + 1) % 256)
        (out ++ frame 1 (ds.take 128 ++ List.replicate (128 - (ds.take 128).length) 0))
        (written + (ds.take 128).length) (evs ++ [Progress.Waiting, Progress.Started, Progress.Packet 1])
        (Nat.mod_lt _ (by omega)) (by simp only [List.length_drop]; omega)]
      have harith : written + (ds.take 128).length + (ds.drop 128).length =
          written + ds.length := by
        simp only [List.length_drop]
        omega
      have hmod : ((1 + 1) % 256 + (chunkify (ds.drop 128)).length) % 256 =
          (1 + ((chunkify (ds.drop 128)).length + 1)) % 256 := by
        rw [Nat.mod_add_mod]
        congr 1
        omega
      rw [harith, hmod]
      simp only [List.map_cons, framesP, packetEvents, padChunk, List.append_assoc,
        List.cons_append, List.nil_append]

set_option maxRecDepth 4000 in
theorem receiveLoop_start (fuel : Nat) (cs : List (List Nat)) (p : Nat)
    (out buf sink : List Nat) (received : Nat) (evs : List Progress)
    (hp : p < 256) (hcs : ∀ c ∈ cs, c.length = 128) (hbuf : buf.length = 128)
    (hlen : cs.length < fuel) :
    receiveLoop fuel ⟨p, false⟩ ⟨framesP p cs, out⟩ buf sink received evs =
      some ⟨.ok (received + 128 * cs.length), ⟨(p + cs.length) % 256, false⟩,
        ⟨[], out ++ NAK :: ackStream cs.length⟩, sink ++ cs.flatten,
        evs ++ .Started :: packetEvents p cs⟩ := by
  cases fuel with
  | zero => omega
  | succ fuel =>
    cases cs with
    | nil =>
      have hrp : read_packet ⟨p, false⟩ ⟨framesP p [], out⟩ 128 =
          ⟨.ok 0, [], ⟨p, false⟩, ⟨[], out ++ [NAK, NAK, ACK]⟩, [.Started]⟩ := by
        rw [read_packet_of_unstarted p _ 128 (by omega)]
        rw [show framesP p ([] : List (List Nat)) = [EOT, EOT] from rfl]
        rw [read_packet_eot p [] (out ++ [NAK])]
        simp
      have hra : readAttempts 10 ⟨p, false⟩ ⟨framesP p [], out⟩ 128 buf =
          ⟨.ok 0, ⟨p, false⟩, ⟨[], out ++ [NAK, NAK, ACK]⟩, buf, [.Started]⟩ := by
        rw [readAttempts_not_interrupted 9 _ _ _ _ (by rw [hrp]; simp), hrp]
        simp [overlay]
      simp only [receiveLoop, hra]
      simp only [List.length_nil, Nat.mul_zero, Nat.add_zero, Nat.mod_eq_of_lt hp,
        ackStream, List.replicate, List.nil_append, List.flatten_nil, List.append_nil,
        packetEvents]
    | cons c cs =>
      have hc : c.length = 128 := hcs c (by simp)
      have hrp : read_packet ⟨p, false⟩ ⟨framesP p (c :: cs), out⟩ 128 =
          ⟨.ok 128, c, ⟨(p + 1) % 256, true⟩,
            ⟨framesP ((p + 1) % 256) cs, out ++ [NAK, ACK]⟩, [.Started, .Packet p]⟩ := by
        rw [read_packet_of_unstarted p _ 128 (by omega)]
        rw [show framesP p (c :: cs) = frame p c ++ framesP ((p + 1) % 256) cs from rfl]
        rw [read_packet_data_ack p hp c hc _ (out ++ [NAK])]
        simp
      have hra : readAttempts 10 ⟨p, false⟩ ⟨framesP p (c :: cs), out⟩ 128 buf =
          ⟨.ok 128, ⟨(p + 1) % 256, true⟩,
            ⟨framesP ((p + 1) % 256) cs, out ++ [NAK, ACK]⟩, c, [.Started, .Packet p]⟩ := by
        rw [readAttempts_not_interrupted 9 _ _ _ _ (by rw [hrp]; simp), hrp]
        simp [overlay_full buf c hbuf hc]
      simp only [receiveLoop, hra]
      rw [receiveLoop_spec fuel cs ((p + 1) % 256) (out ++ [NAK, ACK]) c (sink ++ c)
        (received + 128) (evs ++ [Progress.Started, Progress.Packet p])
        (Nat.mod_lt _ (by omega))
        (fun x hx => hcs x (by simp [hx])) hc (by simp at hlen; omega)]
      have harith : received + 128 + 128 * cs.length = received + 128 * (c :: cs).length := by
        simp only [List.length_cons]
        ring
      have hmod : ((p + 1) % 256 + cs.length) % 256 = (p + (c :: cs).length) % 256 := by
        rw [Nat.mod_add_mod]
        congr 1
        simp only [List.length_cons]
        omega
      rw [harith, hmod]
      simp only [List.length_cons, ackStream_succ, List.flatten_cons, List.append_assoc,
        List.cons_append, List.nil_append, packetEvents]

/-- C1: round-trip identity.  For every finite byte stream `data` of
length `L` there are wire streams `S` (sender to receiver) and `R`
(receiver to sender) forming a lossless duplex run of
`transmit(data, wire)` against `receive(wire, sink)`: the sender, fed
exactly `R`, succeeds returning exactly `L` (padding excluded) and puts
exactly `S` on the wire consuming all of `R`; the receiver, fed exactly
`S`, succeeds returning `128 * k`, the smallest multiple of 128 that is
at least `L` (witnessed by the last two conjuncts; 0 when `L = 0`), puts
exactly `R` on the wire, and delivers to the destination sink the bytes
of `data` followed by zero padding of the final packet. -/
theorem c1_round_trip (data : List Nat) :
    ∃ (S R sink : List Nat) (k : Nat),
      (∃ st ev, transmitX data R = some ⟨.ok data.length, st, ⟨[], S⟩, ev⟩) ∧
      (∃ st ev, receiveX S = some ⟨.ok (128 * k), st, ⟨[], R⟩, sink, ev⟩) ∧
      sink.take data.length = data ∧
      sink.drop data.length = List.replicate (128 * k - data.length) 0 ∧
      data.length ≤ 128 * k ∧ 128 * k < data.length + 128 := by
  have hmem : ∀ c ∈ (chunkify data).map padChunk, c.length = 128 := by
    intro c hc
    rcases List.mem_map.mp hc with ⟨c0, hc0, hpad⟩
    have hle : c0.length ≤ 128 := chunkify_mem_le data.length data le_rfl c0 hc0
    subst hpad
    simp only [padChunk, List.length_append, List.length_replicate]
    omega
  have hflat : ((chunkify data).map padChunk).flatten =
      data ++ List.replicate (128 * (chunkify data).length - data.length) 0 :=
    chunkify_flatten_pad data.length data le_rfl
  have hbounds := chunkify_count_bounds data.length data le_rfl
  refine ⟨framesP 1 ((chunkify data).map padChunk), NAK :: ackStream (chunkify data).length,
    data ++ List.replicate (128 * (chunkify data).length - data.length) 0,
    (chunkify data).length, ?_, ?_, ?_, ?_, ?_, ?_⟩
  · refine ⟨⟨(1 + (chunkify data).length) % 256, false⟩,
      [.Waiting, .Started] ++ packetEvents 1 (chunkify data), ?_⟩
    show transmitLoop (data.length + 1) data ⟨1, false⟩
      ⟨NAK :: ackStream (chunkify data).length, []⟩ 0 [] = _
    rw [transmitLoop_start (data.length + 1) data [] 0 [] (by omega)]
    simp
  · refine ⟨⟨(1 + ((chunkify data).map padChunk).length) % 256, false⟩,
      .Started :: packetEvents 1 ((chunkify data).map padChunk), ?_⟩
    show receiveLoop ((framesP 1 ((chunkify data).map padChunk)).length + 1) ⟨1, false⟩
      ⟨framesP 1 ((chunkify data).map padChunk), []⟩ (List.replicate 128 0) [] 0 [] = _
    rw [receiveLoop_start _ ((chunkify data).map padChunk) 1 [] (List.replicate 128 0)
      [] 0 [] (by omega) hmem (by simp)
      (by have := framesP_len_ge ((chunkify data).map padChunk) 1; omega)]
    rw [hflat]
    simp
  · rw [List.take_left]
  · rw [List.drop_left]
  · exact hbounds.1
  · exact hbounds.2

/-- C7 (counterexample): on a fresh session, `read_packet` with a 3-byte
destination buffer fails with `UnexpectedEof` WITHOUT performing the
initial `NAK` handshake write: the buffer-size gate runs before the
handshake, so the wire output is empty (not the single `NAK` the claim
asserts), no transport byte is consumed, and `started` stays false. -/
theorem c7_undersized_counterexample :
    (read_packet Xmodem.new ⟨[], []⟩ 3).res = .error .UnexpectedEof ∧
    (read_packet Xmodem.new ⟨[], []⟩ 3).wire.output = [] ∧
    (read_packet Xmodem.new ⟨[], []⟩ 3).state.started = false ∧
    (([] : List Nat) ≠ [NAK]) := by
  refine ⟨rfl, rfl, rfl, by decide⟩

/-- C7 (amended): calling `read_packet` with a destination buffer
shorter than 128 bytes fails with `UnexpectedEof` before any wire
interaction, including the start handshake: no byte is written (no
`NAK`), no transport byte is consumed, and the session state, `started`
included, is completely unchanged. -/
theorem c7_undersized_buffer (s : Xmodem) (w : Wire) (n : Nat) (hn : n < 128) :
    read_packet s w n = ⟨.error .UnexpectedEof, [], s, w, []⟩ := by
  simp [read_packet, hn]

/-- C7 (witness). -/
theorem c7_undersized_buffer_witness :
    read_packet ⟨5, true⟩ ⟨[EOT], [9]⟩ 3 =
      ⟨.error .UnexpectedEof, [], ⟨5, true⟩, ⟨[EOT], [9]⟩, []⟩ :=
  c7_undersized_buffer ⟨5, true⟩ ⟨[EOT], [9]⟩ 3 (by decide)

set_option maxRecDepth 100000 in
/-- C2 (code bug evidence): `read_packet` reads `buf.len()` payload
bytes, not always 128.  With a 129-byte destination buffer and a wire
carrying the three header bytes followed by 130 zero bytes, the call
succeeds: it consumes 129 payload bytes plus the checksum byte
(the whole 133-byte input), stores 129 bytes into the buffer and
returns `Ok(129)` — contradicting the function's own documentation
("On success, returns the number of bytes read (always 128)") and the
claim's "reads exactly 128 payload bytes ... returns 128". -/
theorem c2_read_packet_overlong_buffer :
    (read_packet ⟨1, true⟩ ⟨SOH :: 1 :: 254 :: List.replicate 130 0, []⟩ 129).res = .ok 129 ∧
    (read_packet ⟨1, true⟩ ⟨SOH :: 1 :: 254 :: List.replicate 130 0, []⟩ 129).payload.length = 129 ∧
    (read_packet ⟨1, true⟩ ⟨SOH :: 1 :: 254 :: List.replicate 130 0, []⟩ 129).wire.input = [] ∧
    ((Except.ok 129 : Except ErrorKind Nat) ≠ .ok 128) := by
  refine ⟨rfl, rfl, rfl, by simp⟩

set_option maxRecDepth 100000 in
/-- C6 (counterexample): the length gate of `write_packet` is
`buf.len() < 128 && !buf.is_empty()`, so a 129-byte buffer — neither
exactly 128 nor 0 — is NOT rejected with `UnexpectedEof`: against a peer
that answers `ACK` it succeeds with `Ok(129)`. -/
theorem c6_length_gate_counterexample :
    (write_packet ⟨1, true⟩ ⟨[ACK], []⟩ (List.replicate 129 7)).res = .ok 129 ∧
    ((Except.ok 129 : Except ErrorKind Nat) ≠ .error .UnexpectedEof) := by
  refine ⟨rfl, by simp⟩

set_option maxRecDepth 100000 in
/-- C6 (amended): `write_packet` rejects exactly the buffers whose
length is strictly between 0 and 128, returning `UnexpectedEof` before
any wire interaction with the session state unchanged; a 0-length buffer
is accepted as the end-of-transmission signal and a 128-byte buffer as a
data packet (and buffers longer than 128 bytes also pass the gate). -/
theorem c6_length_gate :
    (∀ (s : Xmodem) (w : Wire) (buf : List Nat), 0 < buf.length → buf.length < 128 →
      write_packet s w buf = ⟨.error .UnexpectedEof, s, w, []⟩) ∧
    (write_packet ⟨1, true⟩ ⟨[ACK], []⟩ (List.replicate 128 7)).res = .ok 128 ∧
    (write_packet ⟨1, true⟩ ⟨[NAK, ACK], []⟩ []).res = .ok 0 ∧
    (write_packet ⟨1, true⟩ ⟨[ACK], []⟩ (List.replicate 129 7)).res = .ok 129 := by
  refine ⟨?_, rfl, rfl, rfl⟩
  intro s w buf h1 h2
  have hne : buf ≠ [] := by
    intro h
    subst h
    simp at h1
  simp [write_packet, h2, hne]

/-- C6 (witness). -/
theorem c6_length_gate_witness :
    write_packet ⟨3, true⟩ ⟨[], [8]⟩ (List.replicate 5 0) =
      ⟨.error .UnexpectedEof, ⟨3, true⟩, ⟨[], [8]⟩, []⟩ :=
  c6_length_gate.1 ⟨3, true⟩ ⟨[], [8]⟩ (List.replicate 5 0) (by simp) (by simp)

/-- C5 (counterexample): a `CAN` received as the sequence byte does
yield `ConnectionAborted`, but the engine then writes one further wire
byte — `expect_byte_or_cancel` echoes a `CAN` to the peer before
failing — so "no further wire bytes are produced after reading the CAN"
is false at this input. -/
theorem c5_can_counterexample :
    (read_packet ⟨1, true⟩ ⟨[SOH, CAN], []⟩ 128).res = .error .ConnectionAborted ∧
    (read_packet ⟨1, true⟩ ⟨[SOH, CAN], []⟩ 128).wire.output = [CAN] ∧
    (([CAN] : List Nat) ≠ []) := by
  refine ⟨rfl, rfl, by decide⟩

/-- C5 (amended): a `CAN` received where not expected aborts with
`ConnectionAborted` in every position — as the first control byte of
`read_packet`, as the sequence byte (provided the expected sequence byte
is not itself `CAN`), as the complement byte (provided the expected
complement is not itself `CAN`), and as the peer's response to a
complete packet in `write_packet` — and the engine writes no further
wire bytes after reading the `CAN`, except in the sequence and
complement positions, where it writes exactly one `CAN` byte back
before failing. -/
theorem c5_can_aborts :
    (∀ (p : Nat) (rest out : List Nat) (n : Nat), ¬ n < 128 →
      read_packet ⟨p, true⟩ ⟨CAN :: rest, out⟩ n =
        ⟨.error .ConnectionAborted, [], ⟨p, true⟩, ⟨rest, out⟩, []⟩) ∧
    (∀ (p : Nat) (rest out : List Nat) (n : Nat), ¬ n < 128 → p ≠ CAN →
      read_packet ⟨p, true⟩ ⟨SOH :: CAN :: rest, out⟩ n =
        ⟨.error .ConnectionAborted, [], ⟨p, true⟩, ⟨rest, out ++ [CAN]⟩, []⟩) ∧
    (∀ (p : Nat) (rest out : List Nat) (n : Nat), ¬ n < 128 → complU8 p ≠ CAN →
      read_packet ⟨p, true⟩ ⟨SOH :: p :: CAN :: rest, out⟩ n =
        ⟨.error .ConnectionAborted, [], ⟨p, true⟩, ⟨rest, out ++ [CAN]⟩, []⟩) ∧
    (∀ (p : Nat) (rest out buf : List Nat), buf.length = 128 →
      write_packet ⟨p, true⟩ ⟨CAN :: rest, out⟩ buf =
        ⟨.error .ConnectionAborted, ⟨p, true⟩,
          ⟨rest, out ++ SOH :: p :: complU8 p :: (buf ++ [chks buf])⟩, []⟩) := by
  refine ⟨?_, ?_, ?_, ?_⟩
  · intro p rest out n hn
    simp [read_packet, read_byte, hn, CAN]
  · intro p rest out n hn hpc
    have h24 : ¬ ((24 : Nat) = p) := by
      intro h
      exact hpc (by rw [← h]; rfl)
    rw [read_packet_soh p true (CAN :: rest) out n hn]
    simp only [if_true, List.nil_append]
    simp [read_packet_rest, expect_byte_or_cancel, read_byte, write_byte, h24, CAN]
  · intro p rest out n hn hpc
    have h24 : ¬ ((24 : Nat) = complU8 p) := by
      intro h
      exact hpc (by rw [← h]; rfl)
    rw [read_packet_soh p true (p :: CAN :: rest) out n hn]
    simp only [if_true, List.nil_append]
    simp only [read_packet_rest]
    rw [expect_byte_or_cancel_ok]
    simp [expect_byte_or_cancel, read_byte, write_byte, h24, CAN]
  · intro p rest out buf hb
    have hne : buf ≠ [] := by
      intro h
      rw [h] at hb
      simp at hb
    have hgate : ¬ (buf.length < 128 ∧ buf ≠ []) := by
      rw [hb]
      simp
    rw [write_packet_of_started p _ _ hgate]
    simp only [write_packet_started, hne, if_false, write_byte, writePayload_spec]
    simp [read_byte, CAN, chks]

/-- C5 (witness). -/
theorem c5_can_aborts_witness :
    read_packet ⟨1, true⟩ ⟨CAN :: [7], [9]⟩ 128 =
      ⟨.error .ConnectionAborted, [], ⟨1, true⟩, ⟨[7], [9]⟩, []⟩ ∧
    read_packet ⟨1, true⟩ ⟨SOH :: CAN :: [7], []⟩ 128 =
      ⟨.error .ConnectionAborted, [], ⟨1, true⟩, ⟨[7], [CAN]⟩, []⟩ ∧
    read_packet ⟨1, true⟩ ⟨SOH :: 1 :: CAN :: [7], []⟩ 128 =
      ⟨.error .ConnectionAborted, [], ⟨1, true⟩, ⟨[7], [CAN]⟩, []⟩ ∧
    write_packet ⟨1, true⟩ ⟨CAN :: [7], []⟩ (List.replicate 128 0) =
      ⟨.error .ConnectionAborted, ⟨1, true⟩,
        ⟨[7], [] ++ SOH :: 1 :: complU8 1 :: (List.replicate 128 0 ++ [chks (List.replicate 128 0)])⟩, []⟩ :=
  ⟨c5_can_aborts.1 1 [7] [9] 128 (by decide),
   c5_can_aborts.2.1 1 [7] [] 128 (by decide) (by decide),
   c5_can_aborts.2.2.1 1 [7] [] 128 (by decide) (by decide),
   c5_can_aborts.2.2.2 1 [7] [] (List.replicate 128 0) (by simp)⟩

/-- C9 (counterexample): the two `read_packet` variants write different
wire bytes on a first control byte that is neither `SOH`, `EOT` nor
`CAN`: the std variant writes one `CAN` back, the ttywrite variant
(whose `CAN` write is commented out in the source) writes nothing, so
the implementations are not wire-equivalent. -/
theorem c9_variants_counterexample :
    (read_packet ⟨1, true⟩ ⟨[0], []⟩ 128).wire.output = [CAN] ∧
    (read_packetT ⟨1, true⟩ ⟨[0], []⟩ 128).wire.output = [] ∧
    (([CAN] : List Nat) ≠ []) := by
  refine ⟨rfl, rfl, by decide⟩

/-- C9 (amended): the two protocol variants are behaviorally equivalent
except for one wire byte: `write_packet` is identical in the two files,
and for every session state, wire and buffer size the two `read_packet`
variants return the same result, the same session state, the same
buffer bytes and the same events and consume the same input — their
wire outputs also agree, except on the invalid-first-control-byte path,
where the std variant writes exactly one extra `CAN` byte. -/
theorem c9_variants_equiv :
    (∀ (s : Xmodem) (w : Wire) (buf : List Nat),
      write_packetT s w buf = write_packet s w buf) ∧
    (∀ (s : Xmodem) (w : Wire) (n : Nat),
      (read_packetT s w n).res = (read_packet s w n).res ∧
      (read_packetT s w n).state = (read_packet s w n).state ∧
      (read_packetT s w n).payload = (read_packet s w n).payload ∧
      (read_packetT s w n).events = (read_packet s w n).events ∧
      (read_packetT s w n).wire.input = (read_packet s w n).wire.input ∧
      ((read_packet s w n).wire.output = (read_packetT s w n).wire.output ∨
        ((read_packet s w n).res = .error .InvalidData ∧
         (read_packet s w n).wire.output = (read_packetT s w n).wire.output ++ [CAN]))) := by
  refine ⟨fun s w buf => rfl, fun s w n => ?_⟩
  by_cases hn : n < 128
  · simp [read_packet, read_packetT, hn]
  · simp only [read_packet, read_packetT, hn, if_false]
    cases hr : read_byte true (if s.started then w else write_byte w NAK) with
    | mk res w2 =>
      cases res with
      | error e => simp
      | ok b1 =>
        by_cases hb1 : b1 = EOT
        · subst hb1
          simp only [if_pos rfl]
          cases he : expect_byte (write_byte w2 NAK) EOT with
          | mk res2 w4 =>
            cases res2 with
            | error e2 => simp
            | ok b2 => simp
        · by_cases hsoh : b1 = SOH
          · subst hsoh
            simp [hb1]
          · simp [hb1, hsoh, write_byte]

theorem wps_seq (s : Xmodem) (w : Wire) (buf : List Nat) (ev0 : List Progress) :
    (∀ k, (write_packet_started s w buf ev0).res = .ok k → 0 < k →
      (write_packet_started s w buf ev0).state.packet = (s.packet + 1) % 256) ∧
    (∀ e, (write_packet_started s w buf ev0).res = .error e →
      (write_packet_started s w buf ev0).state.packet = s.packet) ∧
    ((write_packet_started s w buf ev0).res = .ok 0 →
      (write_packet_started s w buf ev0).state.packet = s.packet) := by
  unfold write_packet_started
  by_cases hb : buf = []
  · simp only [hb, if_true]
    cases h1 : expect_byte (write_byte w EOT) NAK with
    | mk r1 w2 =>
      cases r1 with
      | error e => simp [h1]
      | ok b =>
        cases h2 : expect_byte (write_byte w2 EOT) ACK with
        | mk r2 w4 =>
          cases r2 with
          | error e => simp [h1, h2]
          | ok b2 => simp [h1, h2]
  · have hlen : 0 < buf.length := List.length_pos.mpr hb
    simp only [hb, if_false]
    cases h1 : read_byte true
        (write_byte (writePayload buf (write_byte (write_byte (write_byte w SOH) s.packet)
          (complU8 s.packet)) 0).1
          (writePayload buf (write_byte (write_byte (write_byte w SOH) s.packet)
            (complU8 s.packet)) 0).2) with
    | mk r1 w6 =>
      cases r1 with
      | error e => simp [h1]
      | ok r =>
        by_cases hr : r = ACK
        · simp [h1, hr]
          intro h
          exact absurd h hb
        · by_cases hrn : r = NAK
          · simp [h1, hr, hrn, NAK, ACK]
          · simp [h1, hr, hrn]

theorem write_packet_seq (s : Xmodem) (w : Wire) (buf : List Nat) :
    (∀ k, (write_packet s w buf).res = .ok k → 0 < k →
      (write_packet s w buf).state.packet = (s.packet + 1) % 256) ∧
    (∀ e, (write_packet s w buf).res = .error e →
      (write_packet s w buf).state.packet = s.packet) ∧
    ((write_packet s w buf).res = .ok 0 →
      (write_packet s w buf).state.packet = s.packet) := by
  unfold write_packet
  by_cases hgate : buf.length < 128 ∧ buf ≠ []
  · simp [hgate]
  · simp only [hgate, if_false]
    by_cases hst : s.started
    · simp only [hst, if_true]
      exact wps_seq s w buf []
    · simp only [hst, if_false]
      cases h1 : expect_byte w NAK with
      | mk r1 w2 =>
        cases r1 with
        | error e => simp [h1]
        | ok b =>
          simp only [h1]
          exact wps_seq { s with started := true } w2 buf _

theorem rpr_seq (s : Xmodem) (w : Wire) (n : Nat) (hn : 0 < n) :
    (∀ k, (read_packet_rest s w n).res = .ok k → 0 < k →
      (read_packet_rest s w n).state.packet = (s.packet + 1) % 256) ∧
    (∀ e, (read_packet_rest s w n).res = .error e →
      (read_packet_rest s w n).state.packet = s.packet) ∧
    ((read_packet_rest s w n).res = .ok 0 →
      (read_packet_rest s w n).state.packet = s.packet) := by
  unfold read_packet_rest
  cases h1 : expect_byte_or_cancel w s.packet with
  | mk r1 w1 =>
    cases r1 with
    | error e => simp [h1]
    | ok b1 =>
      cases h2 : expect_byte_or_cancel w1 (complU8 s.packet) with
      | mk r2 w2 =>
        cases r2 with
        | error e => simp [h1, h2]
        | ok b2 =>
          rcases h3 : readPayload n w2 0 [] with ⟨acc, cs, err, w3⟩
          cases err with
          | some e => simp [h1, h2, h3]
          | none =>
            cases h4 : read_byte false w3 with
            | mk r4 w4 =>
              cases r4 with
              | error e => simp [h1, h2, h3, h4]
              | ok rcs =>
                by_cases hcs : rcs = cs
                · simp [h1, h2, h3, h4, hcs]
                  intro h
                  omega
                · simp [h1, h2, h3, h4, hcs]

theorem read_packet_seq (s : Xmodem) (w : Wire) (n : Nat) :
    (∀ k, (read_packet s w n).res = .ok k → 0 < k →
      (read_packet s w n).state.packet = (s.packet + 1) % 256) ∧
    (∀ e, (read_packet s w n).res = .error e →
      (read_packet s w n).state.packet = s.packet) ∧
    ((read_packet s w n).res = .ok 0 →
      (read_packet s w n).state.packet = s.packet) := by
  by_cases hn : n < 128
  · simp [read_packet, hn]
  · have hn0 : 0 < n := by omega
    unfold read_packet
    simp only [hn, if_false]
    have hsp : (if s.started then s else { s with started := true }).packet = s.packet := by
      by_cases hst : s.started <;> simp [hst]
    cases h1 : read_byte true (if s.started then w else write_byte w NAK) with
    | mk r1 w2 =>
      cases r1 with
      | error e => simp [h1, hsp]
      | ok b1 =>
        by_cases hb1 : b1 = EOT
        · subst hb1
          simp only [if_pos rfl]
          cases h2 : expect_byte (write_byte w2 NAK) EOT with
          | mk r2 w4 =>
            cases r2 with
            | error e => simp [h1, h2, hsp]
            | ok b2 => simp [h1, h2, hsp]
        · by_cases hsoh : b1 = SOH
          · subst hsoh
            simp only [if_neg hb1, if_neg (by simp [SOH, EOT] : ¬ (SOH = EOT)), h1]
            have hrest := rpr_seq (if s.started then s else { s with started := true }) w2 n hn0
            simp only [hsp] at hrest
            simp only [show ¬ (SOH ≠ SOH) from by simp, if_false]
            exact hrest
          · simp [h1, hb1, hsoh, hsp]

set_option maxRecDepth 100000 in
/-- C4: sequence numbering.  A fresh session starts with
`packet_sequence = 1` and not started; `write_packet` and `read_packet`
advance the counter by exactly 1 modulo 256 on a successfully
acknowledged data packet (a result `Ok(k)` with `k > 0`) and never
otherwise (any error, and the `Ok(0)` end-of-transmission exchange,
leave it unchanged); the complement byte sent — and the one the
receiver accepts — is `255 - packet_sequence` (the third byte of the
frame); and at counter 0, reached after 255 advances from 1 as the
iterate conjunct shows, the packet is sent and accepted with sequence
byte 0 and complement byte 255. -/
theorem c4_sequence_numbering :
    Xmodem.new = ⟨1, false⟩ ∧
    (∀ (s : Xmodem) (w : Wire) (buf : List Nat),
      (∀ k, (write_packet s w buf).res = .ok k → 0 < k →
        (write_packet s w buf).state.packet = (s.packet + 1) % 256) ∧
      (∀ e, (write_packet s w buf).res = .error e →
        (write_packet s w buf).state.packet = s.packet) ∧
      ((write_packet s w buf).res = .ok 0 →
        (write_packet s w buf).state.packet = s.packet)) ∧
    (∀ (s : Xmodem) (w : Wire) (n : Nat),
      (∀ k, (read_packet s w n).res = .ok k → 0 < k →
        (read_packet s w n).state.packet = (s.packet + 1) % 256) ∧
      (∀ e, (read_packet s w n).res = .error e →
        (read_packet s w n).state.packet = s.packet) ∧
      ((read_packet s w n).res = .ok 0 →
        (read_packet s w n).state.packet = s.packet)) ∧
    (∀ (p : Nat), p < 256 → ∀ (buf : List Nat), buf.length = 128 →
      ∀ (rest out : List Nat),
      write_packet ⟨p, true⟩ ⟨ACK :: rest, out⟩ buf =
        ⟨.ok 128, ⟨(p + 1) % 256, true⟩,
          ⟨rest, out ++ SOH :: p :: (255 - p) :: buf ++ [chks buf]⟩, [.Packet p]⟩ ∧
      read_packet ⟨p, true⟩ ⟨(SOH :: p :: (255 - p) :: buf ++ [chks buf]) ++ rest, out⟩ 128 =
        ⟨.ok 128, buf, ⟨(p + 1) % 256, true⟩, ⟨rest, out ++ [ACK]⟩, [.Packet p]⟩) ∧
    Nat.iterate (fun q => (q + 1) % 256) 255 (Xmodem.new).packet = 0 ∧
    (write_packet ⟨0, true⟩ ⟨[ACK], []⟩ (List.replicate 128 7)).wire.output =
      SOH :: 0 :: 255 :: (List.replicate 128 7 ++ [128]) ∧
    (read_packet ⟨0, true⟩ ⟨SOH :: 0 :: 255 :: (List.replicate 128 7 ++ [128]), []⟩ 128).res =
      .ok 128 := by
  refine ⟨rfl, write_packet_seq, read_packet_seq, ?_, by decide, rfl, rfl⟩
  intro p hp buf hbuf rest out
  constructor
  · have := wps_data_ack p hp buf hbuf rest out []
    rw [write_packet_of_started p _ _ (by rw [hbuf]; simp), this]
    simp [frame]
  · have := read_packet_data_ack p hp buf hbuf rest out
    rw [show (SOH :: p :: (255 - p) :: buf ++ [chks buf]) ++ rest = frame p buf ++ rest from by
      simp [frame], this]

set_option maxRecDepth 100000 in
/-- C4 (witness). -/
theorem c4_sequence_numbering_witness :
    (write_packet ⟨1, true⟩ ⟨[ACK], []⟩ (List.replicate 128 0)).state.packet = (1 + 1) % 256 ∧
    (read_packet ⟨1, true⟩ ⟨[EOT], []⟩ 128).state.packet = 1 ∧
    write_packet ⟨5, true⟩ ⟨ACK :: [], []⟩ (List.replicate 128 0) =
      ⟨.ok 128, ⟨(5 + 1) % 256, true⟩,
        ⟨[], [] ++ SOH :: 5 :: (255 - 5) :: List.replicate 128 0 ++ [chks (List.replicate 128 0)]⟩,
        [.Packet 5]⟩ :=
  ⟨(c4_sequence_numbering.2.1 ⟨1, true⟩ ⟨[ACK], []⟩ (List.replicate 128 0)).1 128 rfl (by decide),
   (c4_sequence_numbering.2.2.1 ⟨1, true⟩ ⟨[EOT], []⟩ 128).2.1 .TimedOut rfl,
   ((c4_sequence_numbering.2.2.2.1 5 (by decide) (List.replicate 128 0) (by simp) [] []).1)⟩

theorem memwrite_write_spec : ∀ (buf : List Nat) (m : MemWrite) (mem : Nat → Nat),
    m.i + buf.length ≤ m.stop →
    ∃ mem2, MemWrite.write m mem buf =
      (.ok buf.length, ⟨m.i + buf.length, m.start, m.stop⟩, mem2) := by
  intro buf
  induction buf with
  | nil =>
    intro m mem hle
    refine ⟨mem, ?_⟩
    simp [MemWrite.write]
  | cons b rest ih =>
    intro m mem hle
    simp only [List.length_cons] at hle
    have hne : m.i ≠ m.stop := by omega
    rcases ih ⟨m.i + 1, m.start, m.stop⟩ (fun a => if a = m.i then b else mem a)
      (by simp only []; omega) with ⟨mem2, hrec⟩
    refine ⟨mem2, ?_⟩
    simp only [MemWrite.write, MemWrite.write_byte, if_neg hne, hrec]
    simp only [List.length_cons]
    have harith : m.i + 1 + rest.length = m.i + (rest.length + 1) := by omega
    rw [harith]

/-- C8: memory sink bound.  `write_byte` fails with `UnexpectedEof` and
leaves the sink unchanged exactly when the cursor equals the end bound;
otherwise it stores the byte at the cursor address, advances the cursor
by exactly one and returns the byte; therefore the invariant
`start ≤ i ≤ end` is preserved by every call, writing exactly
`end - start` bytes into a freshly constructed sink succeeds and leaves
the cursor at the bound, and any further write fails with the cursor
still at the bound.  (The Rust `end` field is named `stop` here; the
raw volatile store is modelled as a memory-map update at address `i`.) -/
theorem c8_memwrite_bound :
    (∀ (m : MemWrite) (mem : Nat → Nat) (b : Nat), m.i = m.stop →
      MemWrite.write_byte m mem b = (.error .UnexpectedEof, m, mem)) ∧
    (∀ (m : MemWrite) (mem : Nat → Nat) (b : Nat), m.i ≠ m.stop →
      MemWrite.write_byte m mem b =
        (.ok b, { m with i := m.i + 1 }, fun a => if a = m.i then b else mem a)) ∧
    (∀ (m : MemWrite) (mem : Nat → Nat) (b : Nat), m.start ≤ m.i → m.i ≤ m.stop →
      m.start ≤ (MemWrite.write_byte m mem b).2.1.i ∧
      (MemWrite.write_byte m mem b).2.1.i ≤ m.stop) ∧
    (∀ (start stop : Nat) (mem : Nat → Nat) (buf : List Nat), start ≤ stop →
      buf.length = stop - start →
      ∃ mem2, MemWrite.write (MemWrite.new start stop) mem buf =
          (.ok buf.length, ⟨stop, start, stop⟩, mem2) ∧
        ∀ b, MemWrite.write_byte ⟨stop, start, stop⟩ mem2 b =
          (.error .UnexpectedEof, ⟨stop, start, stop⟩, mem2)) := by
  refine ⟨?_, ?_, ?_, ?_⟩
  · intro m mem b h
    simp [MemWrite.write_byte, h]
  · intro m mem b h
    simp [MemWrite.write_byte, h]
  · intro m mem b h1 h2
    by_cases h : m.i = m.stop
    · simp [MemWrite.write_byte, h]
      omega
    · simp [MemWrite.write_byte, h]
      omega
  · intro start stop mem buf hle hlen
    rcases memwrite_write_spec buf (MemWrite.new start stop) mem
      (by simp [MemWrite.new]; omega) with ⟨mem2, hw⟩
    refine ⟨mem2, ?_, ?_⟩
    · rw [hw]
      simp [MemWrite.new]
      omega
    · intro b
      simp [MemWrite.write_byte]

/-- C8 (witness). -/
theorem c8_memwrite_bound_witness :
    MemWrite.write_byte ⟨7, 3, 7⟩ (fun _ => 0) 5 =
      (.error .UnexpectedEof, ⟨7, 3, 7⟩, fun _ => 0) ∧
    MemWrite.write_byte ⟨4, 3, 7⟩ (fun _ => 0) 5 =
      (.ok 5, ⟨5, 3, 7⟩, fun a => if a = 4 then 5 else 0) ∧
    (∃ mem2, MemWrite.write (MemWrite.new 100 103) (fun _ => 0) [1, 2, 3] =
        (.ok 3, ⟨103, 100, 103⟩, mem2) ∧
      ∀ b, MemWrite.write_byte ⟨103, 100, 103⟩ mem2 b =
        (.error .UnexpectedEof, ⟨103, 100, 103⟩, mem2)) :=
  ⟨c8_memwrite_bound.1 ⟨7, 3, 7⟩ (fun _ => 0) 5 rfl,
   c8_memwrite_bound.2.1 ⟨4, 3, 7⟩ (fun _ => 0) 5 (by decide),
   c8_memwrite_bound.2.2.2 100 103 (fun _ => 0) [1, 2, 3] (by decide) (by decide)⟩


theorem read_packet_rest_nak (p : Nat) (hp : p < 256) (st : Bool) (c : List Nat)
    (hc : c.length = 128) (x : Nat) (hx : ¬ x = chks c) (rest out : List Nat) :
    read_packet_rest ⟨p, st⟩ ⟨p :: ((255 - p) :: (c ++ (x :: rest))), out⟩ 128 =
      ⟨.error .Interrupted, c, ⟨p, st⟩, ⟨rest, out ++ [NAK]⟩, []⟩ := by
  simp only [read_packet_rest]
  rw [expect_byte_or_cancel_ok]
  simp only []
  rw [complU8_eq hp, expect_byte_or_cancel_ok]
  simp only []
  rw [readPayload_spec c 128 (x :: rest) out [] 0 hc]
  simp only []
  rw [read_byte_cons false x rest out (by simp)]
  simp only [List.nil_append]
  rw [if_pos (show x ≠ List.foldl (fun a b => (a + b) % 256) 0 c from by
    simpa [chks] using hx)]
  simp [write_byte]

theorem read_packet_data_nak (p : Nat) (hp : p < 256) (c : List Nat)
    (hc : c.length = 128) (x : Nat) (hx : ¬ x = chks c) (rest out : List Nat) :
    read_packet ⟨p, true⟩ ⟨(SOH :: p :: (255 - p) :: (c ++ [x])) ++ rest, out⟩ 128 =
      ⟨.error .Interrupted, c, ⟨p, true⟩, ⟨rest, out ++ [NAK]⟩, []⟩ := by
  have hshape : (SOH :: p :: (255 - p) :: (c ++ [x])) ++ rest =
      SOH :: (p :: ((255 - p) :: (c ++ (x :: rest)))) := by
    simp
  rw [hshape, read_packet_soh p true _ out 128 (by omega)]
  simp only [if_true, List.nil_append]
  rw [read_packet_rest_nak p hp true c hc x hx rest out]

theorem writeAttempts_nak (k : Nat) : ∀ (p : Nat), p < 256 → ∀ (buf : List Nat),
    buf.length = 128 → ∀ (rest out : List Nat),
    writeAttempts k ⟨p, true⟩ ⟨List.replicate k NAK ++ rest, out⟩ buf =
      ⟨.error .BrokenPipe, ⟨p, true⟩,
        ⟨rest, out ++ (List.replicate k (frame p buf)).flatten⟩, []⟩ := by
  induction k with
  | zero =>
    intro p hp buf hb rest out
    simp [writeAttempts]
  | succ k ih =>
    intro p hp buf hb rest out
    have hwp : write_packet ⟨p, true⟩ ⟨List.replicate (k + 1) NAK ++ rest, out⟩ buf =
        ⟨.error .Interrupted, ⟨p, true⟩,
          ⟨List.replicate k NAK ++ rest, out ++ frame p buf⟩, []⟩ := by
      rw [show List.replicate (k + 1) NAK ++ rest = NAK :: (List.replicate k NAK ++ rest) from by
        simp [List.replicate_succ]]
      rw [write_packet_of_started p _ _ (by rw [hb]; simp)]
      exact wps_data_nak p hp buf hb _ _ _
    rw [writeAttempts_interrupted k _ _ _ (by rw [hwp])]
    simp only [hwp]
    rw [ih p hp buf hb rest (out ++ frame p buf)]
    simp [List.replicate_succ, List.flatten_cons, List.append_assoc]

theorem readAttempts_nak (k : Nat) : ∀ (p : Nat), p < 256 → ∀ (c : List Nat),
    c.length = 128 → ∀ (x : Nat), ¬ x = chks c → ∀ (rest out buf : List Nat),
    buf.length = 128 →
    readAttempts k ⟨p, true⟩
        ⟨(List.replicate k (SOH :: p :: (255 - p) :: (c ++ [x]))).flatten ++ rest, out⟩
        128 buf =
      ⟨.error .BrokenPipe, ⟨p, true⟩, ⟨rest, out ++ List.replicate k NAK⟩,
        if k = 0 then buf else c, []⟩ := by
  induction k with
  | zero =>
    intro p hp c hc x hx rest out buf hbuf
    simp [readAttempts]
  | succ k ih =>
    intro p hp c hc x hx rest out buf hbuf
    have hshape : (List.replicate (k + 1) (SOH :: p :: (255 - p) :: (c ++ [x]))).flatten ++ rest =
        (SOH :: p :: (255 - p) :: (c ++ [x])) ++
          ((List.replicate k (SOH :: p :: (255 - p) :: (c ++ [x]))).flatten ++ rest) := by
      simp [List.replicate_succ, List.flatten_cons, List.append_assoc]
    have hrp : read_packet ⟨p, true⟩
        ⟨(List.replicate (k + 1) (SOH :: p :: (255 - p) :: (c ++ [x]))).flatten ++ rest, out⟩ 128 =
        ⟨.error .Interrupted, c, ⟨p, true⟩,
          ⟨(List.replicate k (SOH :: p :: (255 - p) :: (c ++ [x]))).flatten ++ rest,
            out ++ [NAK]⟩, []⟩ := by
      rw [hshape]
      exact read_packet_data_nak p hp c hc x hx _ out
    rw [readAttempts_interrupted k _ _ _ _ (by rw [hrp])]
    simp only [hrp]
    rw [overlay_full buf c hbuf hc]
    rw [ih p hp c hc x hx rest (out ++ [NAK]) c hc]
    have hkcase : (if k = 0 then c else c) = c := by simp
    rw [hkcase]
    have hnak : (out ++ [NAK]) ++ List.replicate k NAK = out ++ List.replicate (k + 1) NAK := by
      simp [List.replicate_succ, List.append_assoc]
    rw [hnak]
    simp

theorem transmitLoop_first_error (fuel : Nat) (ds : List Nat) (hlen : ds.length = 128)
    (s s2 : Xmodem) (w w2 : Wire) (written : Nat) (evs ev2 : List Progress)
    (e : ErrorKind) (ha : writeAttempts 10 s w ds = ⟨.error e, s2, w2, ev2⟩) :
    transmitLoop (fuel + 1) ds s w written evs = some ⟨.error e, s2, w2, evs ++ ev2⟩ := by
  simp only [transmitLoop, readMax_slice]
  rw [show ds.take 128 = ds from List.take_of_length_le (by omega)]
  rw [if_neg (by omega : ¬ ds.length = 0)]
  rw [show ds ++ List.replicate (128 - ds.length) 0 = ds from by
    rw [hlen]
    simp]
  rw [ha]

theorem receiveLoop_first_error (fuel : Nat) (s s2 : Xmodem) (w w2 : Wire)
    (buf buf2 sink : List Nat) (received : Nat) (evs ev2 : List Progress)
    (e : ErrorKind) (ha : readAttempts 10 s w 128 buf = ⟨.error e, s2, w2, buf2, ev2⟩) :
    receiveLoop (fuel + 1) s w buf sink received evs =
      some ⟨.error e, s2, w2, sink, evs ++ ev2⟩ := by
  simp only [receiveLoop, ha]

set_option maxRecDepth 2000 in
theorem transmitX_always_nak :
    transmitX (List.replicate 128 0) (List.replicate 11 NAK) =
      some ⟨.error .BrokenPipe, ⟨1, true⟩,
        ⟨[], (List.replicate 10 (frame 1 (List.replicate 128 0))).flatten⟩,
        [.Waiting, .Started]⟩ := by
  have hb : (List.replicate 128 0 : List Nat).length = 128 := by simp
  have hwp : write_packet ⟨1, false⟩ ⟨List.replicate 11 NAK, []⟩ (List.replicate 128 0) =
      ⟨.error .Interrupted, ⟨1, true⟩,
        ⟨List.replicate 9 NAK, [] ++ frame 1 (List.replicate 128 0)⟩,
        [.Waiting, .Started]⟩ := by
    rw [show (List.replicate 11 NAK : List Nat) = NAK :: (NAK :: List.replicate 9 NAK) from by
      simp [List.replicate_succ]]
    rw [write_packet_of_unstarted 1 _ [] _ (by rw [hb]; simp)]
    have := wps_data_nak 1 (by omega) (List.replicate 128 0) hb (List.replicate 9 NAK) []
      [.Waiting, .Started]
    rw [this]
  have hwa : writeAttempts 10 ⟨1, false⟩ ⟨List.replicate 11 NAK, []⟩ (List.replicate 128 0) =
      ⟨.error .BrokenPipe, ⟨1, true⟩,
        ⟨[], (List.replicate 10 (frame 1 (List.replicate 128 0))).flatten⟩,
        [.Waiting, .Started]⟩ := by
    rw [writeAttempts_interrupted 9 _ _ _ (by rw [hwp])]
    simp only [hwp]
    rw [show (List.replicate 9 NAK : List Nat) = List.replicate 9 NAK ++ [] from by simp]
    rw [writeAttempts_nak 9 1 (by omega) (List.replicate 128 0) hb []
      ([] ++ frame 1 (List.replicate 128 0))]
    have hfl : (List.replicate 10 (frame 1 (List.replicate 128 0))).flatten =
        frame 1 (List.replicate 128 0) ++
          (List.replicate 9 (frame 1 (List.replicate 128 0))).flatten := by
      rw [show (10 : Nat) = 9 + 1 from rfl, List.replicate_succ, List.flatten_cons]
    rw [hfl]
    simp only [List.nil_append, List.append_nil]
  show transmitLoop ((List.replicate 128 0 : List Nat).length + 1) (List.replicate 128 0)
    Xmodem.new ⟨List.replicate 11 NAK, []⟩ 0 [] = _
  rw [show (Xmodem.new : Xmodem) = ⟨1, false⟩ from rfl]
  rw [transmitLoop_first_error _ (List.replicate 128 0) hb ⟨1, false⟩ ⟨1, true⟩
    ⟨List.replicate 11 NAK, []⟩ _ 0 [] _ .BrokenPipe hwa]
  simp

set_option maxRecDepth 2000 in
theorem receiveX_always_bad :
    receiveX ((List.replicate 10 (SOH :: 1 :: (255 - 1) ::
        (List.replicate 128 0 ++ [1]))).flatten) =
      some ⟨.error .BrokenPipe, ⟨1, true⟩, ⟨[], List.replicate 11 NAK⟩, [],
        [.Started]⟩ := by
  have hb : (List.replicate 128 0 : List Nat).length = 128 := by simp
  have hx : ¬ (1 : Nat) = chks (List.replicate 128 0) := by
    rw [show chks (List.replicate 128 0) = 0 from rfl]
    omega
  have hshape : (List.replicate 10 (SOH :: 1 :: (255 - 1) ::
      (List.replicate 128 0 ++ [1]))).flatten =
      (SOH :: 1 :: (255 - 1) :: (List.replicate 128 0 ++ [1])) ++
        (List.replicate 9 (SOH :: 1 :: (255 - 1) ::
          (List.replicate 128 0 ++ [1]))).flatten := by
    rw [show (10 : Nat) = 9 + 1 from rfl, List.replicate_succ, List.flatten_cons]
  have hrp : read_packet ⟨1, false⟩
      ⟨(List.replicate 10 (SOH :: 1 :: (255 - 1) :: (List.replicate 128 0 ++ [1]))).flatten,
        []⟩ 128 =
      ⟨.error .Interrupted, List.replicate 128 0, ⟨1, true⟩,
        ⟨(List.replicate 9 (SOH :: 1 :: (255 - 1) :: (List.replicate 128 0 ++ [1]))).flatten,
          [NAK, NAK]⟩, [.Started]⟩ := by
    rw [read_packet_of_unstarted 1 _ 128 (by omega)]
    simp only [List.nil_append]
    rw [hshape, read_packet_data_nak 1 (by omega) (List.replicate 128 0) hb 1 hx _ [NAK]]
    exact rfl
  have hra : readAttempts 10 ⟨1, false⟩
      ⟨(List.replicate 10 (SOH :: 1 :: (255 - 1) :: (List.replicate 128 0 ++ [1]))).flatten,
        []⟩ 128 (List.replicate 128 0) =
      ⟨.error .BrokenPipe, ⟨1, true⟩, ⟨[], List.replicate 11 NAK⟩,
        List.replicate 128 0, [.Started]⟩ := by
    rw [readAttempts_interrupted 9 _ _ _ _ (by rw [hrp])]
    simp only [hrp]
    rw [overlay_full (List.replicate 128 0) (List.replicate 128 0) hb hb]
    rw [show (List.replicate 9 (SOH :: 1 :: (255 - 1) ::
        (List.replicate 128 0 ++ [1]))).flatten =
      (List.replicate 9 (SOH :: 1 :: (255 - 1) ::
        (List.replicate 128 0 ++ [1]))).flatten ++ [] from by simp]
    rw [readAttempts_nak 9 1 (by omega) (List.replicate 128 0) hb 1 hx [] [NAK, NAK]
      (List.replicate 128 0) hb]
    rw [if_neg (by omega : ¬ (9 = 0))]
    rw [show ([NAK, NAK] : List Nat) ++ List.replicate 9 NAK = List.replicate 11 NAK from by
      simp [List.replicate_succ]]
    exact rfl
  show receiveLoop (((List.replicate 10 (SOH :: 1 :: (255 - 1) ::
      (List.replicate 128 0 ++ [1]))).flatten).length + 1) Xmodem.new
    ⟨(List.replicate 10 (SOH :: 1 :: (255 - 1) :: (List.replicate 128 0 ++ [1]))).flatten, []⟩
    (List.replicate 128 0) [] 0 [] = _
  rw [show (Xmodem.new : Xmodem) = ⟨1, false⟩ from rfl]
  rw [receiveLoop_first_error _ ⟨1, false⟩ ⟨1, true⟩ _ ⟨[], List.replicate 11 NAK⟩
    (List.replicate 128 0) (List.replicate 128 0) [] 0 [] [.Started] .BrokenPipe hra]
  simp

/-- C3: retry exhaustion.  In both whole-stream drivers the retry round
returns any non-`Interrupted` error immediately after a single
packet-level call; an `Interrupted` error makes it retry the same
buffer with the remaining budget; after 10 consecutive `Interrupted`
failures the budget is exhausted and the driver fails with
`BrokenPipe`.  Concretely, a peer that always answers `write_packet`
with `NAK` makes `transmit` of one 128-byte chunk perform exactly 10
packet sends — the wire output is exactly 10 copies of the 132-byte
frame and all 11 peer `NAK` bytes are consumed — and then fail with
`BrokenPipe`; dually, a wire that always delivers a corrupted packet
makes `receive` answer `NAK` 11 times (the handshake `NAK` plus one per
failed attempt) and fail with `BrokenPipe` with nothing delivered to
the sink. -/
theorem c3_retry_exhaustion :
    (∀ (k : Nat) (s : Xmodem) (w : Wire) (buf : List Nat) (e : ErrorKind),
      (write_packet s w buf).res = .error e → e ≠ .Interrupted →
      writeAttempts (k + 1) s w buf = write_packet s w buf) ∧
    (∀ (k : Nat) (s : Xmodem) (w : Wire) (n : Nat) (buf : List Nat) (e : ErrorKind),
      (read_packet s w n).res = .error e → e ≠ .Interrupted →
      readAttempts (k + 1) s w n buf =
        ⟨(read_packet s w n).res, (read_packet s w n).state, (read_packet s w n).wire,
          overlay buf (read_packet s w n).payload, (read_packet s w n).events⟩) ∧
    (∀ (k : Nat) (s : Xmodem) (w : Wire) (buf : List Nat),
      (write_packet s w buf).res = .error .Interrupted →
      writeAttempts (k + 1) s w buf =
        ⟨(writeAttempts k (write_packet s w buf).state (write_packet s w buf).wire buf).res,
         (writeAttempts k (write_packet s w buf).state (write_packet s w buf).wire buf).state,
         (writeAttempts k (write_packet s w buf).state (write_packet s w buf).wire buf).wire,
         (write_packet s w buf).events ++
           (writeAttempts k (write_packet s w buf).state (write_packet s w buf).wire buf).events⟩) ∧
    (∀ (k : Nat) (s : Xmodem) (w : Wire) (n : Nat) (buf : List Nat),
      (read_packet s w n).res = .error .Interrupted →
      readAttempts (k + 1) s w n buf =
        ⟨(readAttempts k (read_packet s w n).state (read_packet s w n).wire n
            (overlay buf (read_packet s w n).payload)).res,
         (readAttempts k (read_packet s w n).state (read_packet s w n).wire n
            (overlay buf (read_packet s w n).payload)).state,
         (readAttempts k (read_packet s w n).state (read_packet s w n).wire n
            (overlay buf (read_packet s w n).payload)).wire,
         (readAttempts k (read_packet s w n).state (read_packet s w n).wire n
            (overlay buf (read_packet s w n).payload)).buf,
         (read_packet s w n).events ++
           (readAttempts k (read_packet s w n).state (read_packet s w n).wire n
              (overlay buf (read_packet s w n).payload)).events⟩) ∧
    (∀ (s : Xmodem) (w : Wire) (buf : List Nat),
      writeAttempts 0 s w buf = ⟨.error .BrokenPipe, s, w, []⟩) ∧
    (∀ (s : Xmodem) (w : Wire) (n : Nat) (buf : List Nat),
      readAttempts 0 s w n buf = ⟨.error .BrokenPipe, s, w, buf, []⟩) ∧
    (∃ tr, transmitX (List.replicate 128 0) (List.replicate 11 NAK) = some tr ∧
      tr.res = .error .BrokenPipe ∧
      tr.wire.output = (List.replicate 10 (frame 1 (List.replicate 128 0))).flatten ∧
      tr.wire.input = []) ∧
    (∃ rr, receiveX ((List.replicate 10 (SOH :: 1 :: (255 - 1) ::
        (List.replicate 128 0 ++ [1]))).flatten) = some rr ∧
      rr.res = .error .BrokenPipe ∧
      rr.wire.output = List.replicate 11 NAK ∧
      rr.wire.input = [] ∧ rr.sink = []) := by
  refine ⟨?_, ?_, ?_, ?_, fun s w buf => rfl, fun s w n buf => rfl, ?_, ?_⟩
  · intro k s w buf e hres he
    exact writeAttempts_not_interrupted k s w buf (by rw [hres]; simp [he])
  · intro k s w n buf e hres he
    exact readAttempts_not_interrupted k s w n buf (by rw [hres]; simp [he])
  · intro k s w buf hres
    exact writeAttempts_interrupted k s w buf hres
  · intro k s w n buf hres
    exact readAttempts_interrupted k s w n buf hres
  · exact ⟨_, transmitX_always_nak, rfl, rfl, rfl⟩
  · exact ⟨_, receiveX_always_bad, rfl, rfl, rfl, rfl⟩

set_option maxRecDepth 8000 in
/-- C3 (witness). -/
theorem c3_retry_exhaustion_witness :
    writeAttempts 10 ⟨1, true⟩ ⟨[0], []⟩ (List.replicate 128 0) =
      write_packet ⟨1, true⟩ ⟨[0], []⟩ (List.replicate 128 0) ∧
    readAttempts 10 ⟨1, true⟩ ⟨[CAN], []⟩ 128 (List.replicate 128 0) =
      ⟨(read_packet ⟨1, true⟩ ⟨[CAN], []⟩ 128).res,
       (read_packet ⟨1, true⟩ ⟨[CAN], []⟩ 128).state,
       (read_packet ⟨1, true⟩ ⟨[CAN], []⟩ 128).wire,
       overlay (List.replicate 128 0) (read_packet ⟨1, true⟩ ⟨[CAN], []⟩ 128).payload,
       (read_packet ⟨1, true⟩ ⟨[CAN], []⟩ 128).events⟩ ∧
    writeAttempts 1 ⟨1, true⟩ ⟨[NAK], []⟩ (List.replicate 128 0) =
      ⟨(writeAttempts 0 (write_packet ⟨1, true⟩ ⟨[NAK], []⟩ (List.replicate 128 0)).state
          (write_packet ⟨1, true⟩ ⟨[NAK], []⟩ (List.replicate 128 0)).wire
          (List.replicate 128 0)).res,
       (writeAttempts 0 (write_packet ⟨1, true⟩ ⟨[NAK], []⟩ (List.replicate 128 0)).state
          (write_packet ⟨1, true⟩ ⟨[NAK], []⟩ (List.replicate 128 0)).wire
          (List.replicate 128 0)).state,
       (writeAttempts 0 (write_packet ⟨1, true⟩ ⟨[NAK], []⟩ (List.replicate 128 0)).state
          (write_packet ⟨1, true⟩ ⟨[NAK], []⟩ (List.replicate 128 0)).wire
          (List.replicate 128 0)).wire,
       (write_packet ⟨1, true⟩ ⟨[NAK], []⟩ (List.replicate 128 0)).events ++
         (writeAttempts 0 (write_packet ⟨1, true⟩ ⟨[NAK], []⟩ (List.replicate 128 0)).state
            (write_packet ⟨1, true⟩ ⟨[NAK], []⟩ (List.replicate 128 0)).wire
            (List.replicate 128 0)).events⟩ :=
  ⟨c3_retry_exhaustion.1 9 ⟨1, true⟩ ⟨[0], []⟩ (List.replicate 128 0) .InvalidData rfl
     (by simp),
   c3_retry_exhaustion.2.1 9 ⟨1, true⟩ ⟨[CAN], []⟩ 128 (List.replicate 128 0)
     .ConnectionAborted rfl (by simp),
   c3_retry_exhaustion.2.2.1 0 ⟨1, true⟩ ⟨[NAK], []⟩ (List.replicate 128 0) rfl⟩

theorem defaultReadGo_ok_length : ∀ (n : Nat) (st : List (Except ErrorKind Nat))
    (acc l : List Nat) (st2 : List (Except ErrorKind Nat)),
    defaultReadGo n st acc = (.ok l, st2) → l.length = acc.length + n := by
  intro n
  induction n with
  | zero =>
    intro st acc l st2 h
    simp only [defaultReadGo] at h
    cases h
    simp
  | succ n ih =>
    intro st acc l st2 h
    simp only [defaultReadGo, streamReadByte] at h
    cases st with
    | nil => simp at h
    | cons r rest =>
      cases r with
      | error e => simp at h
      | ok b =>
        simp only [] at h
        have := ih rest (acc ++ [b]) l st2 h
        simp only [List.length_append, List.length_cons, List.length_nil] at this ⊢
        omega

theorem defaultReadGo_shape : ∀ (n : Nat) (st : List (Except ErrorKind Nat))
    (acc : List Nat),
    (∃ l st2, defaultReadGo n st acc = (.ok l, st2) ∧ l.length = acc.length + n) ∨
    (∃ e st2, defaultReadGo n st acc = (.error e, st2)) := by
  intro n st acc
  cases h : defaultReadGo n st acc with
  | mk res st2 =>
    cases res with
    | ok l => exact Or.inl ⟨l, st2, rfl, defaultReadGo_ok_length n st acc l st2 h⟩
    | error e => exact Or.inr ⟨e, st2, rfl⟩

theorem defaultReadGo_interrupted_consumes : ∀ (n : Nat)
    (st : List (Except ErrorKind Nat)) (acc : List Nat)
    (st2 : List (Except ErrorKind Nat)),
    defaultReadGo n st acc = (.error .Interrupted, st2) → st2.length < st.length := by
  intro n
  induction n with
  | zero =>
    intro st acc st2 h
    simp [defaultReadGo] at h
  | succ n ih =>
    intro st acc st2 h
    simp only [defaultReadGo, streamReadByte] at h
    cases st with
    | nil =>
      simp at h
    | cons r rest =>
      cases r with
      | error e =>
        simp only [Prod.mk.injEq] at h
        rcases h with ⟨he, hst⟩
        subst hst
        simp
      | ok b =>
        simp only [] at h
        have := ih rest (acc ++ [b]) st2 h
        simp only [List.length_cons]
        omega

theorem readMax_step_error {σ : Type} (rd : σ → Nat → (Except ErrorKind (List Nat)) × σ)
    (fuel : Nat) (st : σ) (remaining : Nat) (acc : List Nat)
    (hrem : ¬ remaining = 0) (e : ErrorKind) (st2 : σ)
    (hrd : rd st remaining = (.error e, st2)) (he : e ≠ .Interrupted) :
    readMax rd (fuel + 1) st remaining acc = some (.error e, st2) := by
  simp only [readMax, hrd, if_neg hrem]

theorem readMax_step_interrupted {σ : Type}
    (rd : σ → Nat → (Except ErrorKind (List Nat)) × σ)
    (fuel : Nat) (st : σ) (remaining : Nat) (acc : List Nat)
    (hrem : ¬ remaining = 0) (st2 : σ)
    (hrd : rd st remaining = (.error .Interrupted, st2)) :
    readMax rd (fuel + 1) st remaining acc = readMax rd fuel st2 remaining acc := by
  simp only [readMax, hrd, if_neg hrem]

theorem readMax_step_ok {σ : Type} (rd : σ → Nat → (Except ErrorKind (List Nat)) × σ)
    (fuel : Nat) (st : σ) (remaining : Nat) (acc : List Nat)
    (hrem : ¬ remaining = 0) (bytes : List Nat) (st2 : σ)
    (hrd : rd st remaining = (.ok bytes, st2)) (hne : ¬ bytes.length = 0) :
    readMax rd (fuel + 1) st remaining acc =
      readMax rd fuel st2 (remaining - bytes.length) (acc ++ bytes) := by
  simp only [readMax, hrd, if_neg hrem, if_neg hne]

theorem readMax_defaultRead_spec : ∀ (fuel : Nat) (st : List (Except ErrorKind Nat))
    (n : Nat) (acc : List Nat), st.length + 2 ≤ fuel →
    ∃ out, readMax defaultRead fuel st n acc = some out ∧
      ((∃ l st2, out = (.ok l, st2) ∧ l.length = acc.length + n) ∨
       (∃ e st2, out = (.error e, st2) ∧ e ≠ .Interrupted)) := by
  intro fuel
  induction fuel with
  | zero =>
    intro st n acc h
    omega
  | succ fuel ih =>
    intro st n acc h
    by_cases hn : n = 0
    · subst hn
      refine ⟨(.ok acc, st), ?_, Or.inl ⟨acc, st, rfl, by simp⟩⟩
      simp [readMax]
    · rcases defaultReadGo_shape n st [] with ⟨l, st2, hrd, hlen⟩ | ⟨e, st2, hrd⟩
      · simp only [List.length_nil, Nat.zero_add] at hlen
        have hrd' : defaultRead st n = (.ok l, st2) := hrd
        have hbne : ¬ l.length = 0 := by omega
        rw [readMax_step_ok defaultRead fuel st n acc hn l st2 hrd' hbne]
        rw [hlen, Nat.sub_self]
        cases fuel with
        | zero => omega
        | succ fuel2 =>
          refine ⟨(.ok (acc ++ l), st2), ?_, Or.inl ⟨acc ++ l, st2, rfl, by
            simp [hlen]⟩⟩
          simp [readMax]
      · have hrd' : defaultRead st n = (.error e, st2) := hrd
        by_cases he : e = .Interrupted
        · subst he
          have hcons := defaultReadGo_interrupted_consumes n st [] st2 hrd
          rw [readMax_step_interrupted defaultRead fuel st n acc hn st2 hrd']
          exact ih st2 n acc (by omega)
        · refine ⟨(.error e, st2), ?_, Or.inr ⟨e, st2, rfl, he⟩⟩
          exact readMax_step_error defaultRead fuel st n acc hn e st2 hrd' he

/-- C10: with the default bulk `read` of the `Read` trait — which fills
a window byte by byte with `read_byte` — a read on a window of `n`
bytes either fills all `n` bytes and returns that full count, or
propagates the first `read_byte` error: it never returns a short count
and in particular never `Ok(0)` for a non-empty window.  Consequently
`read_max` over such a reader (with enough fuel for the finite
`read_byte` outcome stream) terminates and either fills its whole
buffer or returns a non-`Interrupted` error — its zero-bytes-consumed
break is unreachable, so that exit is only reachable for readers that
override `read` with a short-reading implementation such as the slice
source. -/
theorem c10_default_read :
    (∀ (st : List (Except ErrorKind Nat)) (n : Nat),
      (∃ l st2, defaultRead st n = (.ok l, st2) ∧ l.length = n) ∨
      (∃ e st2, defaultRead st n = (.error e, st2))) ∧
    (∀ (fuel : Nat) (st : List (Except ErrorKind Nat)) (n : Nat),
      st.length + 2 ≤ fuel →
      ∃ out, readMax defaultRead fuel st n [] = some out ∧
        ((∃ l st2, out = (.ok l, st2) ∧ l.length = n) ∨
         (∃ e st2, out = (.error e, st2) ∧ e ≠ .Interrupted))) := by
  constructor
  · intro st n
    have := defaultReadGo_shape n st []
    simpa using this
  · intro fuel st n h
    have := readMax_defaultRead_spec fuel st n [] h
    simpa using this

/-- C10 (witness). -/
theorem c10_default_read_witness :
    ((∃ l st2, defaultRead [Except.ok 5, Except.ok 6] 2 = (.ok l, st2) ∧ l.length = 2) ∨
      (∃ e st2, defaultRead [Except.ok 5, Except.ok 6] 2 = (.error e, st2))) ∧
    (∃ out, readMax defaultRead 4 [Except.ok 5, Except.ok 6] 2 [] = some out ∧
      ((∃ l st2, out = (.ok l, st2) ∧ l.length = 2) ∨
       (∃ e st2, out = (.error e, st2) ∧ e ≠ .Interrupted))) :=
  ⟨c10_default_read.1 [Except.ok 5, Except.ok 6] 2,
   c10_default_read.2 4 [Except.ok 5, Except.ok 6] 2 (by simp)⟩
